import Mathlib

/-!
# Verification of the monitoring-notifier reconciliation and transition core

Shallow embedding of the reconciliation engine (`source/database_actualizer.py`),
the problem-transition detector (`source/monitoring_systems/zabbix_controller.py`),
the fan-out dispatcher (`source/controller.py`) and the persisted-mirror gateway
(`source/outer_resources/database_gateway.py`).

Modelling conventions:
* Python `dict` built by iterating a list (`{x.id: x for x in xs}`) is modelled by
  last-occurrence lookup (`dict_last`), since later assignments overwrite earlier ones.
* Python `set` values (e.g. comprehensions over ids) are modelled as `Finset`.
* Python truthiness of an optional integer column (`if entity.disabled_at`) is
  modelled by `truthy`: `None` and `0` are falsy, every other integer is truthy.
* String ids that the source immediately converts with `int(...)` are modelled as
  already-parsed integers; the external event id of a problem, which is only ever
  compared for set membership and copied (never parsed), stays a `String`.
* Database timestamps (`get_current_time_sec()`) are passed in explicitly as a
  `now : Int` parameter.
-/

namespace CourceMonitoring

/-- Python truthiness of a nullable integer column: `None` and `0` are falsy. -/
def truthy : Option Int → Bool
  | none => false
  | some t => t ≠ 0

/-- `entities/monitoring_system_structure/host_group.py`: `HostGroup` row
(`id`, `title`, nullable `disabled_at`; the bookkeeping `created_at` column is
not read by any code under verification and is omitted). -/
structure HostGroup where
  id : Int
  title : String
  disabled_at : Option Int
deriving DecidableEq, Repr

/-- `entities/monitoring_system_structure/host.py`: `Host` row. -/
structure Host where
  id : Int
  title : String
deriving DecidableEq, Repr

/-- `entities/monitoring_system_structure/trigger.py`: `Trigger` row. -/
structure Trigger where
  id : Int
  title : String
  severity : Int
  host_id : Int
  disabled_at : Option Int
deriving DecidableEq, Repr

/-- `entities/monitoring_system_structure/host_to_host_group.py`: join row. -/
structure HostToHostGroup where
  host_id : Int
  host_group_id : Int
deriving DecidableEq, Repr

/-- Last-wins dictionary lookup: `{key a: a for a in l}[k]`, i.e. the last element
of `l` whose key is `k` (later dict assignments overwrite earlier ones). -/
def dict_last {α β : Type} [DecidableEq β] (key : α → β) (l : List α) (k : β) : Option α :=
  (l.filter (fun a => key a = k)).getLast?

/-- The key set of `{key a: a for a in l}` (Python `set(dict)`). -/
def key_finset {α : Type} (key : α → Int) (l : List α) : Finset Int :=
  (l.map key).toFinset

/-- A Python id `set` built from a list of records, modelled as the
deduplicated list of keys (sets iterate in unspecified order; any fixed
duplicate-free enumeration is a faithful model, and every property proved
about them is stated at the `Finset` level via `toFinset`). -/
def ids_list {α : Type} (key : α → Int) (l : List α) : List Int :=
  (l.map key).dedup

/-- `[d[i] for i in ids]` where `d = {key a: a for a in l}`. -/
def pick_list {α : Type} (key : α → Int) (l : List α) (ids : List Int) : List α :=
  ids.filterMap (dict_last key l)

/-- `database_actualizer.py`: `HostGroupsDiff` dataclass. -/
structure HostGroupsDiff where
  new_host_groups : List HostGroup
  obsolete_host_groups : List HostGroup
  enabled_host_groups : List HostGroup
deriving DecidableEq, Repr

/-- `database_actualizer.py`: `TriggersDiff` dataclass. -/
structure TriggersDiff where
  appeared_triggers : List Trigger
  obsolete_triggers : List Trigger
  enabled_triggers : List Trigger
deriving DecidableEq, Repr

/-- `DatabaseActualizer._cast_host_groups_diff` (database_actualizer.py:116-145).
Builds id-keyed dicts of the actual and saved host groups, the id set of the
saved host groups whose `disabled_at` is truthy, then the three id-set
differences, and maps the ids back through the dicts. -/
def cast_host_groups_diff (actual_host_groups saved_host_groups : List HostGroup) :
    HostGroupsDiff :=
  let actual_host_group_ids := ids_list HostGroup.id actual_host_groups
  let saved_host_group_ids := ids_list HostGroup.id saved_host_groups
  let disabled_host_group_ids :=
    ids_list HostGroup.id (saved_host_groups.filter (fun g => truthy g.disabled_at))
  let appeared_ids := actual_host_group_ids.filter (fun i => i ∉ saved_host_group_ids)
  let enabled_ids := disabled_host_group_ids.filter (fun i => i ∈ actual_host_group_ids)
  let obsolete_ids := saved_host_group_ids.filter
    (fun i => i ∉ disabled_host_group_ids ∧ i ∉ actual_host_group_ids)
  { new_host_groups := pick_list HostGroup.id actual_host_groups appeared_ids,
    enabled_host_groups := pick_list HostGroup.id saved_host_groups enabled_ids,
    obsolete_host_groups := pick_list HostGroup.id saved_host_groups obsolete_ids }

/-- `DatabaseActualizer._cast_triggers_diff` (database_actualizer.py:225-246).
Identical structure to the host-group diff, over triggers. -/
def cast_triggers_diff (actual_triggers saved_triggers : List Trigger) : TriggersDiff :=
  let actual_trigger_ids := ids_list Trigger.id actual_triggers
  let saved_trigger_ids := ids_list Trigger.id saved_triggers
  let saved_disabled_trigger_ids :=
    ids_list Trigger.id (saved_triggers.filter (fun t => truthy t.disabled_at))
  let new_trigger_ids := actual_trigger_ids.filter (fun i => i ∉ saved_trigger_ids)
  let obsolete_trigger_ids := saved_trigger_ids.filter
    (fun i => i ∉ saved_disabled_trigger_ids ∧ i ∉ actual_trigger_ids)
  let enabled_trigger_ids := saved_disabled_trigger_ids.filter (fun i => i ∈ actual_trigger_ids)
  { appeared_triggers := pick_list Trigger.id actual_triggers new_trigger_ids,
    enabled_triggers := pick_list Trigger.id saved_triggers enabled_trigger_ids,
    obsolete_triggers := pick_list Trigger.id saved_triggers obsolete_trigger_ids }

section DictLemmas

variable {α : Type} (key : α → Int)

theorem dict_last_mem {l : List α} {k : Int} {a : α}
    (h : dict_last key l k = some a) : a ∈ l ∧ key a = k := by
  unfold dict_last at h
  rcases List.mem_getLast?_eq_getLast (show a ∈ _ from h) with ⟨hne, ha⟩
  have hmem : a ∈ l.filter (fun a => key a = k) := ha ▸ List.getLast_mem hne
  exact ⟨List.mem_of_mem_filter hmem, by simpa using List.of_mem_filter hmem⟩

theorem dict_last_isSome_iff {l : List α} {k : Int} :
    (dict_last key l k).isSome = true ↔ k ∈ key_finset key l := by
  unfold dict_last key_finset
  rw [List.getLast?_isSome]
  constructor
  · rintro h
    rcases List.exists_mem_of_ne_nil _ h with ⟨a, ha⟩
    have := List.of_mem_filter ha
    simp only [List.mem_toFinset, List.mem_map]
    exact ⟨a, List.mem_of_mem_filter ha, by simpa using this⟩
  · intro h
    simp only [List.mem_toFinset, List.mem_map] at h
    rcases h with ⟨a, ha, hk⟩
    intro hnil
    have : a ∈ List.filter (fun a => decide (key a = k)) l :=
      List.mem_filter.mpr ⟨ha, by simpa using hk⟩
    rw [hnil] at this
    simp at this

theorem mem_pick_list {l : List α} {ids : List Int} {a : α} :
    a ∈ pick_list key l ids ↔ key a ∈ ids ∧ dict_last key l (key a) = some a := by
  unfold pick_list
  rw [List.mem_filterMap]
  constructor
  · rintro ⟨i, hi, hd⟩
    have := (dict_last_mem key hd).2
    subst this
    exact ⟨hi, hd⟩
  · rintro ⟨hi, hd⟩
    exact ⟨key a, hi, hd⟩

theorem mem_ids_list {l : List α} {i : Int} :
    i ∈ ids_list key l ↔ i ∈ key_finset key l := by
  simp [ids_list, key_finset]

theorem pick_list_map_key {l : List α} {ids : List Int}
    (h : ∀ i ∈ ids, i ∈ key_finset key l) :
    (pick_list key l ids).map key = ids := by
  induction ids with
  | nil => rfl
  | cons i rest ih =>
    have hi : i ∈ key_finset key l := h i (List.mem_cons_self i rest)
    have hsome : (dict_last key l i).isSome = true := (dict_last_isSome_iff key).mpr hi
    rcases Option.isSome_iff_exists.mp hsome with ⟨a, ha⟩
    have hk := (dict_last_mem key ha).2
    have htail := ih (fun j hj => h j (List.mem_cons_of_mem i hj))
    simp only [pick_list, List.filterMap_cons, ha] at htail ⊢
    simp [hk, htail]

theorem key_finset_filter_subset (p : α → Bool) (l : List α) :
    key_finset key (l.filter p) ⊆ key_finset key l := by
  intro i hi
  simp only [key_finset, List.mem_toFinset, List.mem_map] at hi ⊢
  rcases hi with ⟨a, ha, hk⟩
  exact ⟨a, List.mem_of_mem_filter ha, hk⟩

theorem mem_key_finset {l : List α} {a : α} (ha : a ∈ l) : key a ∈ key_finset key l := by
  simp only [key_finset, List.mem_toFinset, List.mem_map]
  exact ⟨a, ha, rfl⟩

theorem mem_key_finset_filter {p : α → Bool} {l : List α} {a : α}
    (ha : a ∈ l) (hp : p a = true) : key a ∈ key_finset key (l.filter p) :=
  mem_key_finset key (List.mem_filter.mpr ⟨ha, hp⟩)

end DictLemmas

/-- The id set of the new host groups computed by the diff is exactly
`actual_ids − saved_ids`. -/
theorem hg_diff_new_ids (aG sG : List HostGroup) :
    ((cast_host_groups_diff aG sG).new_host_groups.map HostGroup.id).toFinset
      = key_finset HostGroup.id aG \ key_finset HostGroup.id sG := by
  have hmap : (cast_host_groups_diff aG sG).new_host_groups.map HostGroup.id
      = (ids_list HostGroup.id aG).filter (fun i => i ∉ ids_list HostGroup.id sG) :=
    pick_list_map_key _
      (fun i hi => (mem_ids_list HostGroup.id).mp (List.mem_of_mem_filter hi))
  rw [hmap]
  ext i
  simp [mem_ids_list]

/-- The id set of the enabled host groups is `saved_truthy_disabled_ids ∩ actual_ids`. -/
theorem hg_diff_enabled_ids (aG sG : List HostGroup) :
    ((cast_host_groups_diff aG sG).enabled_host_groups.map HostGroup.id).toFinset
      = key_finset HostGroup.id (sG.filter (fun g => truthy g.disabled_at))
          ∩ key_finset HostGroup.id aG := by
  have hmap : (cast_host_groups_diff aG sG).enabled_host_groups.map HostGroup.id
      = (ids_list HostGroup.id (sG.filter (fun g => truthy g.disabled_at))).filter
          (fun i => i ∈ ids_list HostGroup.id aG) :=
    pick_list_map_key _
      (fun i hi => key_finset_filter_subset HostGroup.id _ sG
        ((mem_ids_list HostGroup.id).mp (List.mem_of_mem_filter hi)))
  rw [hmap]
  ext i
  simp [mem_ids_list]

/-- The id set of the obsolete host groups is
`saved_ids − saved_truthy_disabled_ids − actual_ids`. -/
theorem hg_diff_obsolete_ids (aG sG : List HostGroup) :
    ((cast_host_groups_diff aG sG).obsolete_host_groups.map HostGroup.id).toFinset
      = (key_finset HostGroup.id sG
          \ key_finset HostGroup.id (sG.filter (fun g => truthy g.disabled_at)))
          \ key_finset HostGroup.id aG := by
  have hmap : (cast_host_groups_diff aG sG).obsolete_host_groups.map HostGroup.id
      = (ids_list HostGroup.id sG).filter
          (fun i => i ∉ ids_list HostGroup.id (sG.filter (fun g => truthy g.disabled_at))
            ∧ i ∉ ids_list HostGroup.id aG) :=
    pick_list_map_key _
      (fun i hi => (mem_ids_list HostGroup.id).mp (List.mem_of_mem_filter hi))
  rw [hmap]
  ext i
  simp only [List.mem_toFinset, List.mem_filter, Finset.mem_sdiff, decide_eq_true_eq,
    mem_ids_list]
  tauto

/-- The id set of the appeared triggers is `actual_ids − saved_ids`. -/
theorem trigger_diff_new_ids (aT sT : List Trigger) :
    ((cast_triggers_diff aT sT).appeared_triggers.map Trigger.id).toFinset
      = key_finset Trigger.id aT \ key_finset Trigger.id sT := by
  have hmap : (cast_triggers_diff aT sT).appeared_triggers.map Trigger.id
      = (ids_list Trigger.id aT).filter (fun i => i ∉ ids_list Trigger.id sT) :=
    pick_list_map_key _
      (fun i hi => (mem_ids_list Trigger.id).mp (List.mem_of_mem_filter hi))
  rw [hmap]
  ext i
  simp [mem_ids_list]

/-- The id set of the enabled triggers is `saved_truthy_disabled_ids ∩ actual_ids`. -/
theorem trigger_diff_enabled_ids (aT sT : List Trigger) :
    ((cast_triggers_diff aT sT).enabled_triggers.map Trigger.id).toFinset
      = key_finset Trigger.id (sT.filter (fun t => truthy t.disabled_at))
          ∩ key_finset Trigger.id aT := by
  have hmap : (cast_triggers_diff aT sT).enabled_triggers.map Trigger.id
      = (ids_list Trigger.id (sT.filter (fun t => truthy t.disabled_at))).filter
          (fun i => i ∈ ids_list Trigger.id aT) :=
    pick_list_map_key _
      (fun i hi => key_finset_filter_subset Trigger.id _ sT
        ((mem_ids_list Trigger.id).mp (List.mem_of_mem_filter hi)))
  rw [hmap]
  ext i
  simp [mem_ids_list]

/-- The id set of the obsolete triggers is
`saved_ids − saved_truthy_disabled_ids − actual_ids`. -/
theorem trigger_diff_obsolete_ids (aT sT : List Trigger) :
    ((cast_triggers_diff aT sT).obsolete_triggers.map Trigger.id).toFinset
      = (key_finset Trigger.id sT
          \ key_finset Trigger.id (sT.filter (fun t => truthy t.disabled_at)))
          \ key_finset Trigger.id aT := by
  have hmap : (cast_triggers_diff aT sT).obsolete_triggers.map Trigger.id
      = (ids_list Trigger.id sT).filter
          (fun i => i ∉ ids_list Trigger.id (sT.filter (fun t => truthy t.disabled_at))
            ∧ i ∉ ids_list Trigger.id aT) :=
    pick_list_map_key _
      (fun i hi => (mem_ids_list Trigger.id).mp (List.mem_of_mem_filter hi))
  rw [hmap]
  ext i
  simp only [List.mem_toFinset, List.mem_filter, Finset.mem_sdiff, decide_eq_true_eq,
    mem_ids_list]
  tauto

/-- "Modelled from the spec": the spec's partition predicate over the saved
entities, literally "those with non-null `disabled_at`" (the code instead uses
Python truthiness, under which `disabled_at = 0` does not count as disabled). -/
def spec_non_null_disabled_host_group_ids (saved : List HostGroup) : Finset Int :=
  key_finset HostGroup.id (saved.filter (fun g => g.disabled_at ≠ none))

/-- **C1** (amended): for every list of actual and saved entities, the computed
diff satisfies the three set equations `new = actual_ids − saved_ids`,
`enabled = saved_disabled_ids ∩ actual_ids`,
`obsolete = saved_ids − saved_disabled_ids − actual_ids`, where — amended from
the claim's "non-null `disabled_at`" — "disabled" means a *truthy* `disabled_at`
(non-null and non-zero, Python truthiness); new entities come from the
actual-side dict and enabled/obsolete entities from the saved-side dict; and a
saved entity that is already disabled and absent from actual lands in none of
the three sets.  This holds for both the host-group diff and the trigger diff. -/
theorem diff_set_equations_host_groups_and_triggers
    (aG sG : List HostGroup) (aT sT : List Trigger) :
    (((cast_host_groups_diff aG sG).new_host_groups.map HostGroup.id).toFinset
        = key_finset HostGroup.id aG \ key_finset HostGroup.id sG
      ∧ ((cast_host_groups_diff aG sG).enabled_host_groups.map HostGroup.id).toFinset
          = key_finset HostGroup.id (sG.filter (fun g => truthy g.disabled_at))
              ∩ key_finset HostGroup.id aG
      ∧ ((cast_host_groups_diff aG sG).obsolete_host_groups.map HostGroup.id).toFinset
          = (key_finset HostGroup.id sG
              \ key_finset HostGroup.id (sG.filter (fun g => truthy g.disabled_at)))
              \ key_finset HostGroup.id aG)
    ∧ ((∀ g ∈ (cast_host_groups_diff aG sG).new_host_groups,
          dict_last HostGroup.id aG g.id = some g)
      ∧ (∀ g ∈ (cast_host_groups_diff aG sG).enabled_host_groups,
          dict_last HostGroup.id sG g.id = some g)
      ∧ (∀ g ∈ (cast_host_groups_diff aG sG).obsolete_host_groups,
          dict_last HostGroup.id sG g.id = some g))
    ∧ (∀ g ∈ sG, truthy g.disabled_at = true → g.id ∉ key_finset HostGroup.id aG →
          g.id ∉ ((cast_host_groups_diff aG sG).new_host_groups.map HostGroup.id).toFinset
        ∧ g.id ∉ ((cast_host_groups_diff aG sG).enabled_host_groups.map HostGroup.id).toFinset
        ∧ g.id ∉ ((cast_host_groups_diff aG sG).obsolete_host_groups.map HostGroup.id).toFinset)
    ∧ (((cast_triggers_diff aT sT).appeared_triggers.map Trigger.id).toFinset
        = key_finset Trigger.id aT \ key_finset Trigger.id sT
      ∧ ((cast_triggers_diff aT sT).enabled_triggers.map Trigger.id).toFinset
          = key_finset Trigger.id (sT.filter (fun t => truthy t.disabled_at))
              ∩ key_finset Trigger.id aT
      ∧ ((cast_triggers_diff aT sT).obsolete_triggers.map Trigger.id).toFinset
          = (key_finset Trigger.id sT
              \ key_finset Trigger.id (sT.filter (fun t => truthy t.disabled_at)))
              \ key_finset Trigger.id aT)
    ∧ ((∀ t ∈ (cast_triggers_diff aT sT).appeared_triggers,
          dict_last Trigger.id aT t.id = some t)
      ∧ (∀ t ∈ (cast_triggers_diff aT sT).enabled_triggers,
          dict_last Trigger.id sT t.id = some t)
      ∧ (∀ t ∈ (cast_triggers_diff aT sT).obsolete_triggers,
          dict_last Trigger.id sT t.id = some t))
    ∧ (∀ t ∈ sT, truthy t.disabled_at = true → t.id ∉ key_finset Trigger.id aT →
          t.id ∉ ((cast_triggers_diff aT sT).appeared_triggers.map Trigger.id).toFinset
        ∧ t.id ∉ ((cast_triggers_diff aT sT).enabled_triggers.map Trigger.id).toFinset
        ∧ t.id ∉ ((cast_triggers_diff aT sT).obsolete_triggers.map Trigger.id).toFinset) := by
  refine ⟨⟨hg_diff_new_ids aG sG, hg_diff_enabled_ids aG sG, hg_diff_obsolete_ids aG sG⟩,
    ⟨fun g hg => ((mem_pick_list HostGroup.id).mp hg).2,
      fun g hg => ((mem_pick_list HostGroup.id).mp hg).2,
      fun g hg => ((mem_pick_list HostGroup.id).mp hg).2⟩,
    fun g hg hdis habs => ?_,
    ⟨trigger_diff_new_ids aT sT, trigger_diff_enabled_ids aT sT,
      trigger_diff_obsolete_ids aT sT⟩,
    ⟨fun t ht => ((mem_pick_list Trigger.id).mp ht).2,
      fun t ht => ((mem_pick_list Trigger.id).mp ht).2,
      fun t ht => ((mem_pick_list Trigger.id).mp ht).2⟩,
    fun t ht hdis habs => ?_⟩
  · rw [hg_diff_new_ids, hg_diff_enabled_ids, hg_diff_obsolete_ids]
    have hS : g.id ∈ key_finset HostGroup.id sG := mem_key_finset HostGroup.id hg
    have hD : g.id ∈ key_finset HostGroup.id (sG.filter (fun g => truthy g.disabled_at)) :=
      mem_key_finset_filter HostGroup.id hg hdis
    exact ⟨fun h => (Finset.mem_sdiff.mp h).2 hS,
      fun h => habs (Finset.mem_of_mem_inter_right h),
      fun h => (Finset.mem_sdiff.mp (Finset.mem_sdiff.mp h).1).2 hD⟩
  · rw [trigger_diff_new_ids, trigger_diff_enabled_ids, trigger_diff_obsolete_ids]
    have hS : t.id ∈ key_finset Trigger.id sT := mem_key_finset Trigger.id ht
    have hD : t.id ∈ key_finset Trigger.id (sT.filter (fun t => truthy t.disabled_at)) :=
      mem_key_finset_filter Trigger.id ht hdis
    exact ⟨fun h => (Finset.mem_sdiff.mp h).2 hS,
      fun h => habs (Finset.mem_of_mem_inter_right h),
      fun h => (Finset.mem_sdiff.mp (Finset.mem_sdiff.mp h).1).2 hD⟩

/-- **C1 counterexample**: with `disabled_at = 0` (a non-null value that is
falsy for Python truthiness) the claim's "non-null" partition fails: the saved
entity `⟨1, "A", some 0⟩` has a non-null `disabled_at` and its id reappears in
actual, so the claim places id 1 in the enabled set; the code's diff computes an
empty enabled set. -/
theorem diff_set_equations_non_null_counterexample :
    ¬ (((cast_host_groups_diff [⟨1, "A", none⟩] [⟨1, "A", some 0⟩]).enabled_host_groups.map
          HostGroup.id).toFinset
        = spec_non_null_disabled_host_group_ids [⟨1, "A", some 0⟩]
            ∩ key_finset HostGroup.id [⟨1, "A", none⟩]) := by
  decide

/-- **C1 witness**: the amended theorem evaluated on concrete inventories with a
non-trivial diff (new `{2}`, enabled `{1}`, obsolete `{5}`), and the
disabled-absent clause discharged at a concrete disabled saved trigger. -/
theorem diff_set_equations_witness :
    (((cast_host_groups_diff
        [⟨1, "A", none⟩, ⟨2, "B", none⟩, ⟨3, "C", none⟩]
        [⟨1, "A", some 7⟩, ⟨3, "C", none⟩, ⟨4, "D", some 9⟩, ⟨5, "E", none⟩]).new_host_groups.map
          HostGroup.id).toFinset = {2}
    ∧ ((cast_host_groups_diff
        [⟨1, "A", none⟩, ⟨2, "B", none⟩, ⟨3, "C", none⟩]
        [⟨1, "A", some 7⟩, ⟨3, "C", none⟩, ⟨4, "D", some 9⟩, ⟨5, "E", none⟩]).enabled_host_groups.map
          HostGroup.id).toFinset = {1}
    ∧ ((cast_host_groups_diff
        [⟨1, "A", none⟩, ⟨2, "B", none⟩, ⟨3, "C", none⟩]
        [⟨1, "A", some 7⟩, ⟨3, "C", none⟩, ⟨4, "D", some 9⟩, ⟨5, "E", none⟩]).obsolete_host_groups.map
          HostGroup.id).toFinset = {5})
    ∧ ((10 : Int) ∉ ((cast_triggers_diff [] [⟨10, "T", 3, 1, some 5⟩]).appeared_triggers.map
          Trigger.id).toFinset
      ∧ (10 : Int) ∉ ((cast_triggers_diff [] [⟨10, "T", 3, 1, some 5⟩]).enabled_triggers.map
          Trigger.id).toFinset
      ∧ (10 : Int) ∉ ((cast_triggers_diff [] [⟨10, "T", 3, 1, some 5⟩]).obsolete_triggers.map
          Trigger.id).toFinset) := by
  obtain ⟨⟨h1, h2, h3⟩, -, -, -, -, habsent⟩ :=
    diff_set_equations_host_groups_and_triggers
      [⟨1, "A", none⟩, ⟨2, "B", none⟩, ⟨3, "C", none⟩]
      [⟨1, "A", some 7⟩, ⟨3, "C", none⟩, ⟨4, "D", some 9⟩, ⟨5, "E", none⟩]
      [] [⟨10, "T", 3, 1, some 5⟩]
  exact ⟨⟨by rw [h1]; decide, by rw [h2]; decide, by rw [h3]; decide⟩,
    habsent ⟨10, "T", 3, 1, some 5⟩ (by decide) (by decide) (by decide)⟩

/-! ## Persisted-mirror gateway (`outer_resources/database_gateway.py`) -/

/-- `DatabaseGateway.select` (database_gateway.py:42-47): the generic read of a
whole entity table; the only `WHERE` clause is `entity_type.id > 0`. -/
def db_select {α : Type} (id : α → Int) (rows : List α) : List α :=
  rows.filter (fun a => 0 < id a)

/-- **C4** (amended): `select` returns exactly the stored rows with positive id
— `disabled_at` is *not* filtered, so disabled rows are returned too, which is
precisely what the reconciliation partition step requires of the saved read
(the claim's "its `disabled_at` is null" conjunct does not hold). -/
theorem db_select_positive_id_only (rowsG : List HostGroup) (g : HostGroup)
    (rowsT : List Trigger) (t : Trigger) :
    (g ∈ db_select HostGroup.id rowsG ↔ g ∈ rowsG ∧ 0 < g.id)
    ∧ (t ∈ db_select Trigger.id rowsT ↔ t ∈ rowsT ∧ 0 < t.id) := by
  constructor <;> simp [db_select]

/-- **C4 counterexample**: a stored host group with positive id and non-null
`disabled_at` is returned by `select`, refuting "it is in the result iff its id
is positive and its disabled_at is null". -/
theorem db_select_counterexample :
    ¬ (∀ (rows : List HostGroup), ∀ g ∈ rows,
        (g ∈ db_select HostGroup.id rows ↔ 0 < g.id ∧ g.disabled_at = none)) := by
  intro h
  have hmem : (⟨1, "A", some 5⟩ : HostGroup) ∈ db_select HostGroup.id [⟨1, "A", some 5⟩] := by
    decide
  have := (h [⟨1, "A", some 5⟩] ⟨1, "A", some 5⟩ (by decide)).mp hmem
  simp at this

/-- **C4 witness**: the amended theorem applied at a disabled row with positive
id (returned) and the fact that the same row fails the claim's null test. -/
theorem db_select_witness :
    (⟨1, "A", some 5⟩ : HostGroup) ∈ db_select HostGroup.id [⟨1, "A", some 5⟩, ⟨-2, "B", none⟩]
    ∧ (⟨-2, "B", none⟩ : HostGroup) ∉
        db_select HostGroup.id [⟨1, "A", some 5⟩, ⟨-2, "B", none⟩] := by
  have h := db_select_positive_id_only
    [⟨1, "A", some 5⟩, ⟨-2, "B", none⟩] ⟨1, "A", some 5⟩ [] ⟨0, "", 0, 0, none⟩
  refine ⟨h.1.mpr ⟨by decide, by decide⟩, ?_⟩
  have h2 := db_select_positive_id_only
    [⟨1, "A", some 5⟩, ⟨-2, "B", none⟩] ⟨-2, "B", none⟩ [] ⟨0, "", 0, 0, none⟩
  intro hmem
  exact absurd (h2.1.mp hmem).2 (by decide)

/-! ## Problem transition detector
(`monitoring_systems/zabbix_controller.py`) -/

/-- `outer_resources/zabbix_connector.py`: `ZabbixProblem` (frozen dataclass).
`trigger_external_id` and `occurred_at` are strings in the connector that the
controller immediately parses with `int(...)`; they are modelled as the parsed
integers.  `external_id` is only compared for set membership and copied
verbatim, so it stays a `String`. -/
structure ZabbixProblem where
  external_id : String
  trigger_external_id : Int
  trigger_title : String
  opdata : String
  occurred_at : Int
  trigger_severity : Int
deriving DecidableEq, Repr

/-- `monitoring_systems/abstract_monitoring_system_controller.py`:
`MonitoringEvent` dataclass (`resolved_at` defaults to `None`). -/
structure MonitoringEvent where
  external_id : String
  trigger_id : Int
  opdata : String
  occurred_at : Int
  resolved_at : Option Int := none
deriving DecidableEq, Repr

/-- `ZabbixController._construct_raised_problems` (zabbix_controller.py:129-138):
problems of the current snapshot whose external id is not in the previous
snapshot's id set.  Python `set`s of problems are modelled as lists (a set is a
duplicate-free list iterated in unspecified order). -/
def construct_raised_problems
    (current_cycle_problems previous_cycle_problems : List ZabbixProblem) :
    List ZabbixProblem :=
  let previous_problem_external_ids :=
    (previous_cycle_problems.map ZabbixProblem.external_id).dedup
  let current_problem_external_ids :=
    (current_cycle_problems.map ZabbixProblem.external_id).dedup
  let raised_problem_external_ids :=
    current_problem_external_ids.filter (fun i => i ∉ previous_problem_external_ids)
  current_cycle_problems.filter (fun p => p.external_id ∈ raised_problem_external_ids)

/-- `ZabbixController._construct_resolved_problems` (zabbix_controller.py:140-149):
problems of the *previous* snapshot whose external id is gone from the current
snapshot's id set. -/
def construct_resolved_problems
    (current_cycle_problems previous_cycle_problems : List ZabbixProblem) :
    List ZabbixProblem :=
  let previous_problem_external_ids :=
    (previous_cycle_problems.map ZabbixProblem.external_id).dedup
  let current_problem_external_ids :=
    (current_cycle_problems.map ZabbixProblem.external_id).dedup
  let resolved_problem_external_ids :=
    previous_problem_external_ids.filter (fun i => i ∉ current_problem_external_ids)
  previous_cycle_problems.filter (fun p => p.external_id ∈ resolved_problem_external_ids)

/-- The event built for each raised problem (zabbix_controller.py:97-105):
`resolved_at` is left at its `None` default. -/
def raised_monitoring_event (problem : ZabbixProblem) : MonitoringEvent :=
  { external_id := problem.external_id, trigger_id := problem.trigger_external_id,
    opdata := problem.opdata, occurred_at := problem.occurred_at }

/-- The event built for each resolved problem (zabbix_controller.py:110-119):
`resolved_at := get_current_time_sec()`. -/
def resolved_monitoring_event (now : Int) (problem : ZabbixProblem) : MonitoringEvent :=
  { external_id := problem.external_id, trigger_id := problem.trigger_external_id,
    opdata := problem.opdata, occurred_at := problem.occurred_at,
    resolved_at := some now }

/-- The event list built by one detection tick (zabbix_controller.py:91-119):
all raised events appended first, then all resolved events. -/
def collect_tick_events (now : Int)
    (current_cycle_problems previous_cycle_problems : List ZabbixProblem) :
    List MonitoringEvent :=
  (construct_raised_problems current_cycle_problems previous_cycle_problems).map
      raised_monitoring_event
    ++ (construct_resolved_problems current_cycle_problems previous_cycle_problems).map
      (resolved_monitoring_event now)

theorem construct_raised_problems_eq_filter (current previous : List ZabbixProblem) :
    construct_raised_problems current previous
      = current.filter
          (fun p => p.external_id ∉ previous.map ZabbixProblem.external_id) := by
  unfold construct_raised_problems
  apply List.filter_congr
  intro p hp
  have hcur : p.external_id ∈ (current.map ZabbixProblem.external_id).dedup := by
    simp only [List.mem_dedup, List.mem_map]
    exact ⟨p, hp, rfl⟩
  simp [List.mem_filter, hcur]

theorem construct_resolved_problems_eq_filter (current previous : List ZabbixProblem) :
    construct_resolved_problems current previous
      = previous.filter
          (fun p => p.external_id ∉ current.map ZabbixProblem.external_id) := by
  unfold construct_resolved_problems
  apply List.filter_congr
  intro p hp
  have hprev : p.external_id ∈ (previous.map ZabbixProblem.external_id).dedup := by
    simp only [List.mem_dedup, List.mem_map]
    exact ⟨p, hp, rfl⟩
  simp [List.mem_filter, hprev]

/-- **C5**: one detection tick emits exactly one `resolved_at = null` event for
each problem of the current snapshot whose external id is absent from the
previous snapshot (built from the current-side record), exactly one
`resolved_at = now` event for each problem of the previous snapshot whose
external id is absent from the current snapshot (built from the previous-side
record), and the emitted list is all raised events followed by all resolved
events. -/
theorem collect_tick_events_characterization (now : Int)
    (current previous : List ZabbixProblem) :
    collect_tick_events now current previous
      = (current.filter
            (fun p => p.external_id ∉ previous.map ZabbixProblem.external_id)).map
          raised_monitoring_event
        ++ (previous.filter
            (fun p => p.external_id ∉ current.map ZabbixProblem.external_id)).map
          (resolved_monitoring_event now)
    ∧ (∀ p, (raised_monitoring_event p).resolved_at = none)
    ∧ (∀ p, (resolved_monitoring_event now p).resolved_at = some now) := by
  refine ⟨?_, fun p => rfl, fun p => rfl⟩
  unfold collect_tick_events
  rw [construct_raised_problems_eq_filter, construct_resolved_problems_eq_filter]

/-- **C5 witness**: the spec's own example, `P = {a, b, c}`, `C = {b, c, d}`:
the tick yields exactly one raised event for `d` (null `resolved_at`) and one
resolved event for `a` (`resolved_at = 100`), raised first. -/
theorem collect_tick_events_witness :
    collect_tick_events 100
      [⟨"b", 2, "", "", 0, 0⟩, ⟨"c", 3, "", "", 0, 0⟩, ⟨"d", 4, "", "", 0, 0⟩]
      [⟨"a", 1, "", "", 0, 0⟩, ⟨"b", 2, "", "", 0, 0⟩, ⟨"c", 3, "", "", 0, 0⟩]
      = [⟨"d", 4, "", 0, none⟩, ⟨"a", 1, "", 0, some 100⟩] := by
  rw [(collect_tick_events_characterization 100 _ _).1]
  decide

/-- One iteration of the loop body of
`ZabbixController._collect_monitoring_events` (zabbix_controller.py:89-127).
The whole body runs inside `try/except`; the fallible steps — the fetch of the
current problem snapshot and the dispatch of the collected events — are
modelled as `Except` values.  `previous_cycle_problems = current_cycle_problems`
is the last statement of the `try` block, so it executes only when every
earlier step returned normally.  Returns the baseline after the tick. -/
def collect_monitoring_events_tick
    (fetch_problems : Except String (List ZabbixProblem))
    (handle_events : List MonitoringEvent → Except String Unit)
    (now : Int) (previous_cycle_problems : List ZabbixProblem) :
    List ZabbixProblem :=
  match fetch_problems with
  | .error _ => previous_cycle_problems
  | .ok current_cycle_problems =>
    match handle_events
        (collect_tick_events now current_cycle_problems previous_cycle_problems) with
    | .error _ => previous_cycle_problems
    | .ok _ => current_cycle_problems

/-- **C6**: if the current-cycle fetch throws, or any later step of the tick
throws, the baseline after the tick equals the baseline before it; it is
replaced by the current snapshot only when the whole tick succeeds. -/
theorem baseline_advances_only_on_success
    (fetch_problems : Except String (List ZabbixProblem))
    (handle_events : List MonitoringEvent → Except String Unit)
    (now : Int) (previous_cycle_problems : List ZabbixProblem) :
    (∀ msg, fetch_problems = .error msg →
      collect_monitoring_events_tick fetch_problems handle_events now
        previous_cycle_problems = previous_cycle_problems)
    ∧ (∀ current msg, fetch_problems = .ok current →
        handle_events (collect_tick_events now current previous_cycle_problems)
          = .error msg →
        collect_monitoring_events_tick fetch_problems handle_events now
          previous_cycle_problems = previous_cycle_problems)
    ∧ (∀ current, fetch_problems = .ok current →
        handle_events (collect_tick_events now current previous_cycle_problems)
          = .ok () →
        collect_monitoring_events_tick fetch_problems handle_events now
          previous_cycle_problems = current) := by
  refine ⟨fun msg hf => ?_, fun current msg hf hh => ?_, fun current hf hh => ?_⟩
  · subst hf; rfl
  · subst hf; simp [collect_monitoring_events_tick, hh]
  · subst hf; simp [collect_monitoring_events_tick, hh]

/-- **C6 witness**: a concrete failing fetch leaves the concrete baseline
untouched, and a concrete successful tick replaces it. -/
theorem baseline_advances_only_on_success_witness :
    collect_monitoring_events_tick (.error "connection refused") (fun _ => .ok ()) 7
      [⟨"a", 1, "", "", 0, 0⟩] = [⟨"a", 1, "", "", 0, 0⟩]
    ∧ collect_monitoring_events_tick (.ok []) (fun _ => .error "send failed") 7
      [⟨"a", 1, "", "", 0, 0⟩] = [⟨"a", 1, "", "", 0, 0⟩]
    ∧ collect_monitoring_events_tick (.ok [⟨"b", 2, "", "", 0, 0⟩]) (fun _ => .ok ()) 7
      [⟨"a", 1, "", "", 0, 0⟩] = [⟨"b", 2, "", "", 0, 0⟩] :=
  ⟨(baseline_advances_only_on_success _ _ 7 _).1 "connection refused" rfl,
    (baseline_advances_only_on_success _ _ 7 _).2.1 [] "send failed" rfl rfl,
    (baseline_advances_only_on_success _ _ 7 _).2.2 [⟨"b", 2, "", "", 0, 0⟩] rfl rfl⟩

/-- `ZabbixController.get_unresolved_events` (zabbix_controller.py:65-78): one
event per currently open problem, with `resolved_at := get_current_time_sec()`. -/
def get_unresolved_events (now : Int)
    (current_cycle_problems : List ZabbixProblem) : List MonitoringEvent :=
  current_cycle_problems.map (fun problem =>
    { external_id := problem.external_id, trigger_id := problem.trigger_external_id,
      opdata := problem.opdata, occurred_at := problem.occurred_at,
      resolved_at := some now })

/-- **C9**: the on-demand query returns exactly one event per open problem and
stamps every one of them with a non-null `resolved_at = now` — unlike the
cycle-diff path, whose raised events carry `resolved_at = null`. -/
theorem get_unresolved_events_marks_all_resolved (now : Int)
    (problems : List ZabbixProblem) :
    get_unresolved_events now problems = problems.map (resolved_monitoring_event now)
    ∧ (∀ e ∈ get_unresolved_events now problems,
        e.resolved_at = some now ∧ e.resolved_at ≠ none)
    ∧ (get_unresolved_events now problems).length = problems.length
    ∧ (∀ p, (raised_monitoring_event p).resolved_at = none) := by
  refine ⟨rfl, ?_, by simp [get_unresolved_events], fun p => rfl⟩
  intro e he
  rcases List.mem_map.mp he with ⟨p, _, rfl⟩
  exact ⟨rfl, by simp⟩

/-- **C9 witness**: evaluated on one concrete problem. -/
theorem get_unresolved_events_witness :
    get_unresolved_events 42 [⟨"a", 1, "t", "o", 5, 3⟩] = [⟨"a", 1, "o", 5, some 42⟩]
    ∧ (⟨"a", 1, "o", 5, some 42⟩ : MonitoringEvent).resolved_at = some 42
    ∧ (⟨"a", 1, "o", 5, some 42⟩ : MonitoringEvent).resolved_at ≠ none := by
  have h := get_unresolved_events_marks_all_resolved 42 [⟨"a", 1, "t", "o", 5, 3⟩]
  have hmem := h.2.1 ⟨"a", 1, "o", 5, some 42⟩ (by decide)
  exact ⟨by rw [h.1]; decide, hmem.1, hmem.2⟩

/-! ## Event fan-out dispatcher (`controller.py`) -/

/-- `entities/notification_sink.py`: a notification recipient (only the fields
the dispatcher touches). -/
structure NotificationSink where
  id : Int
  recipient_id : String
deriving DecidableEq, Repr

/-- The recipient loop of `Controller._notify_about_raised_event`
(controller.py:95-103) — `_notify_about_resolved_event` (105-113) is
structurally identical.  The notifier call is awaited inside a plain `for` loop
with *no* per-recipient exception handler, so a raising call aborts the loop
and the exception propagates to the caller (`_handle_monitoring_event`, whose
own caller `handle_monitoring_events` catches it per event).  Result: the list
of sinks whose notifier was invoked, in invocation order, and the outcome. -/
def notify_each_sink (notify : NotificationSink → Except String Unit) :
    List NotificationSink → List NotificationSink × Except String Unit
  | [] => ([], Except.ok ())
  | sink :: rest =>
    match notify sink with
    | .error msg => ([sink], .error msg)
    | .ok _ =>
      let r := notify_each_sink notify rest
      (sink :: r.1, r.2)

/-- `Controller.handle_monitoring_events` (controller.py:32-38): every event is
handled inside its own `try/except`, so each event's handler runs regardless of
earlier events' failures; the per-event outcomes are collected. -/
def handle_monitoring_events (handle_event : MonitoringEvent → Except String Unit)
    (events : List MonitoringEvent) : List (Except String Unit) :=
  events.map handle_event

/-- **C3** (amended): within one event's fan-out, a raising notifier call for
one recipient *aborts* the calls for all later recipients of that same event:
if every sink before the failing one succeeds, exactly the earlier sinks and the
failing sink are invoked (once each, in order), no later sink is invoked, and
the exception propagates out of the fan-out loop — it is caught only one level
up, per event, so subsequent events are still handled
(`handle_monitoring_events` runs its handler on every event). -/
theorem notify_fanout_aborts_at_first_failure
    (notify : NotificationSink → Except String Unit)
    (pre post : List NotificationSink) (failing : NotificationSink) (msg : String)
    (h_ok : ∀ s ∈ pre, notify s = .ok ()) (h_err : notify failing = .error msg) :
    notify_each_sink notify (pre ++ failing :: post) = (pre ++ [failing], .error msg)
    ∧ ∀ (handle_event : MonitoringEvent → Except String Unit)
        (events : List MonitoringEvent),
        (handle_monitoring_events handle_event events).length = events.length := by
  refine ⟨?_, fun handle_event events => by simp [handle_monitoring_events]⟩
  induction pre with
  | nil => simp [notify_each_sink, h_err]
  | cons s rest ih =>
    have hs : notify s = .ok () := h_ok s (List.mem_cons_self s rest)
    have htail := ih (fun x hx => h_ok x (List.mem_cons_of_mem s hx))
    simp only [List.cons_append, notify_each_sink, hs]
    rw [show rest.append (failing :: post) = rest ++ failing :: post from rfl, htail]

/-- **C3 counterexample**: two subscribed recipients, the first notifier call
raises — the second recipient's notifier is invoked zero times, not once. -/
theorem notify_fanout_counterexample :
    ¬ ((notify_each_sink
          (fun sink => if sink.id = 1 then .error "boom" else .ok ())
          [⟨1, "a"⟩, ⟨2, "b"⟩]).1.count ⟨2, "b"⟩ = 1) := by
  decide

/-- **C3 witness**: the amended theorem at a concrete three-recipient fan-out
where the middle call fails: the first two sinks are invoked, the third is not,
and the error propagates. -/
theorem notify_fanout_witness :
    notify_each_sink (fun sink => if sink.id = 1 then .error "boom" else .ok ())
      [⟨2, "b"⟩, ⟨1, "a"⟩, ⟨3, "c"⟩] = ([⟨2, "b"⟩, ⟨1, "a"⟩], .error "boom")
    ∧ (handle_monitoring_events (fun _ => .error "event failed")
        [⟨"a", 1, "", 0, none⟩, ⟨"b", 2, "", 0, none⟩]).length = 2 := by
  have h := notify_fanout_aborts_at_first_failure
    (fun sink => if sink.id = 1 then .error "boom" else .ok ())
    [⟨2, "b"⟩] [⟨3, "c"⟩] ⟨1, "a"⟩ "boom"
    (by intro s hs; simp only [List.mem_singleton] at hs; subst hs; rfl) rfl
  exact ⟨h.1, h.2 _ _⟩

/-- `Controller.get_unresolved_events` (controller.py:40-51): index the fetched
unresolved events by trigger id into a dict (later events with the same trigger
id overwrite earlier ones), then collect the dict entry, when present, of each
of the recipient's subscribed triggers. -/
def controller_get_unresolved_events (unresolved_events : List MonitoringEvent)
    (notification_sink_triggers : List Trigger) : List MonitoringEvent :=
  notification_sink_triggers.filterMap
    (fun trigger => dict_last MonitoringEvent.trigger_id unresolved_events trigger.id)

theorem mem_controller_get_unresolved_events
    {unresolved_events : List MonitoringEvent} {sink_triggers : List Trigger}
    {e : MonitoringEvent} :
    e ∈ controller_get_unresolved_events unresolved_events sink_triggers ↔
      ∃ t ∈ sink_triggers,
        dict_last MonitoringEvent.trigger_id unresolved_events t.id = some e := by
  simp [controller_get_unresolved_events, List.mem_filterMap]

theorem controller_get_filter_le_one (u : List MonitoringEvent) (tid : Int) :
    ∀ l : List Trigger, (l.map Trigger.id).Nodup →
      ((controller_get_unresolved_events u l).filter
        (fun e => e.trigger_id = tid)).length ≤ 1 := by
  intro l
  induction l with
  | nil => intro _; simp [controller_get_unresolved_events]
  | cons t rest ih =>
    intro hnd
    rw [List.map_cons, List.nodup_cons] at hnd
    cases hd : dict_last MonitoringEvent.trigger_id u t.id with
    | none =>
      have hstep : controller_get_unresolved_events u (t :: rest)
          = controller_get_unresolved_events u rest := by
        simp [controller_get_unresolved_events, List.filterMap_cons, hd]
      rw [hstep]
      exact ih hnd.2
    | some e =>
      have he_tid : e.trigger_id = t.id := (dict_last_mem _ hd).2
      have hstep : controller_get_unresolved_events u (t :: rest)
          = e :: controller_get_unresolved_events u rest := by
        simp [controller_get_unresolved_events, List.filterMap_cons, hd]
      rw [hstep, List.filter_cons]
      by_cases htid : e.trigger_id = tid
      · have hnil : (controller_get_unresolved_events u rest).filter
            (fun e2 => e2.trigger_id = tid) = [] := by
          rw [List.filter_eq_nil_iff]
          intro e2 he2
          rcases mem_controller_get_unresolved_events.mp he2 with ⟨t2, ht2, hd2⟩
          have h2 : e2.trigger_id = t2.id := (dict_last_mem _ hd2).2
          simp only [decide_eq_true_eq]
          intro hcon
          apply hnd.1
          have : t.id = t2.id := by rw [← he_tid, htid, ← hcon, h2]
          rw [this]
          exact List.mem_map_of_mem Trigger.id ht2
        simp [htid, hnil]
      · simp only [htid, decide_False, if_false]
        exact ih hnd.2

/-- **C10**: the recipient-facing unresolved-events query returns at most one
event per trigger id (the trigger-id-keyed dict keeps a single event when
several open problems share a trigger), every returned event comes from the
fetched unresolved events, and its trigger is one of the recipient's
subscriptions; at most one event is returned per subscribed trigger. -/
theorem recipient_unresolved_events_per_trigger
    (unresolved_events : List MonitoringEvent) (sink_triggers : List Trigger)
    (hnd : (sink_triggers.map Trigger.id).Nodup) :
    (∀ e ∈ controller_get_unresolved_events unresolved_events sink_triggers,
        e ∈ unresolved_events ∧ e.trigger_id ∈ sink_triggers.map Trigger.id)
    ∧ (∀ tid : Int,
        ((controller_get_unresolved_events unresolved_events sink_triggers).filter
          (fun e => e.trigger_id = tid)).length ≤ 1)
    ∧ (controller_get_unresolved_events unresolved_events sink_triggers).length
        ≤ sink_triggers.length := by
  refine ⟨?_, fun tid => controller_get_filter_le_one unresolved_events tid sink_triggers hnd,
    List.length_filterMap_le _ _⟩
  intro e he
  rcases mem_controller_get_unresolved_events.mp he with ⟨t, ht, hd⟩
  have hmem := dict_last_mem MonitoringEvent.trigger_id hd
  refine ⟨hmem.1, ?_⟩
  rw [hmem.2]
  exact List.mem_map_of_mem Trigger.id ht

/-- **C10 witness**: three unresolved events, two of them sharing trigger id 1;
with subscriptions to triggers 1 and 5 the query returns a single event for
trigger 1 (the last one fetched, `"y"`), and the per-trigger bound holds. -/
theorem recipient_unresolved_events_witness :
    controller_get_unresolved_events
      [⟨"x", 1, "", 0, none⟩, ⟨"y", 1, "", 0, none⟩, ⟨"z", 2, "", 0, none⟩]
      [⟨1, "T", 0, 0, none⟩, ⟨5, "U", 0, 0, none⟩] = [⟨"y", 1, "", 0, none⟩]
    ∧ ((controller_get_unresolved_events
        [⟨"x", 1, "", 0, none⟩, ⟨"y", 1, "", 0, none⟩, ⟨"z", 2, "", 0, none⟩]
        [⟨1, "T", 0, 0, none⟩, ⟨5, "U", 0, 0, none⟩]).filter
          (fun e => e.trigger_id = 1)).length ≤ 1 := by
  have h := recipient_unresolved_events_per_trigger
    [⟨"x", 1, "", 0, none⟩, ⟨"y", 1, "", 0, none⟩, ⟨"z", 2, "", 0, none⟩]
    [⟨1, "T", 0, 0, none⟩, ⟨5, "U", 0, 0, none⟩] (by decide)
  exact ⟨by decide, h.2.1 1⟩

/-! ## Host reconciliation (`database_actualizer.py`, hosts) -/

/-- `database_actualizer.py`: `HostSource` dataclass. -/
structure HostSource where
  host_group_id : Int
  host : Host
deriving DecidableEq, Repr

/-- `database_actualizer.py`: `HostsDiff` dataclass. -/
structure HostsDiff where
  new_host_sources : List HostSource
  obsolete_host_sources : List HostSource
  enabled_host_sources : List HostSource
deriving DecidableEq, Repr

/-- A Python `dict[int, list[Host]]` is modelled as an association list
(`List (Int × List Host)`; a genuine dict has pairwise-distinct keys).
`group_host_ids m g` is the per-group host id set that
`_cast_hosts_diff`'s first loops aggregate with
`setdefault(group_id, set()).add(host.id)`. -/
def group_host_ids (m : List (Int × List Host)) (group_id : Int) : List Int :=
  ids_list Host.id ((m.filter (fun e => e.1 = group_id)).flatMap (fun e => e.2))

/-- The global `host_id_to_host` dict of `_cast_hosts_diff` (last assignment
wins over the flattened group-then-host iteration). -/
def host_dict (m : List (Int × List Host)) (host_id : Int) : Option Host :=
  dict_last Host.id (m.flatMap (fun e => e.2)) host_id

/-- The key set of the `..._id_to_host_ids` dict: `setdefault` only ever runs
inside the host loop, so a group id is a key iff at least one host was
iterated under it. -/
def group_ids_keys (m : List (Int × List Host)) : List Int :=
  ((m.filter (fun e => ¬ e.2.isEmpty)).map (fun e => e.1)).dedup

/-- `new_host_ids` for one group (database_actualizer.py:186-188):
`actual_host_ids - saved_host_ids if saved_host_ids is not None else
actual_host_ids` — `saved_map.get(group_id)` is `None` exactly when no saved
host was recorded under the group. -/
def new_host_ids_for (actual saved : List (Int × List Host)) (group_id : Int) :
    List Int :=
  if (group_host_ids saved group_id).isEmpty then group_host_ids actual group_id
  else (group_host_ids actual group_id).filter
    (fun i => i ∉ group_host_ids saved group_id)

/-- `DatabaseActualizer._cast_hosts_diff` (database_actualizer.py:164-196):
per-group set difference of host ids; one `HostSource(group_id, host)` per new
(group, host-id) pair, the host record taken from the global actual-side host
dict; `enabled` and `obsolete` are always the empty list. -/
def cast_hosts_diff
    (actual_host_group_id_to_hosts saved_host_group_id_to_hosts :
      List (Int × List Host)) : HostsDiff :=
  { new_host_sources :=
      (group_ids_keys actual_host_group_id_to_hosts).flatMap (fun group_id =>
        (new_host_ids_for actual_host_group_id_to_hosts saved_host_group_id_to_hosts
          group_id).filterMap (fun host_id =>
            (host_dict actual_host_group_id_to_hosts host_id).map
              (fun host => HostSource.mk group_id host))),
    obsolete_host_sources := [],
    enabled_host_sources := [] }

theorem mem_new_host_ids_for {actual saved : List (Int × List Host)}
    {group_id i : Int} :
    i ∈ new_host_ids_for actual saved group_id ↔
      i ∈ group_host_ids actual group_id ∧ i ∉ group_host_ids saved group_id := by
  unfold new_host_ids_for
  by_cases h : (group_host_ids saved group_id).isEmpty
  · rw [if_pos h]
    have : group_host_ids saved group_id = [] := by
      cases hl : group_host_ids saved group_id with
      | nil => rfl
      | cons a l => rw [hl] at h; simp [List.isEmpty] at h
    simp [this]
  · rw [if_neg h]
    simp [List.mem_filter]

theorem group_host_ids_mem_host_dict {m : List (Int × List Host)} {group_id i : Int}
    (h : i ∈ group_host_ids m group_id) : (host_dict m i).isSome = true := by
  rw [host_dict, dict_last_isSome_iff]
  rw [group_host_ids, mem_ids_list] at h
  simp only [key_finset, List.mem_toFinset, List.mem_map] at h ⊢
  rcases h with ⟨host, hmem, hk⟩
  rcases List.mem_flatMap.mp hmem with ⟨e, he, hhost⟩
  exact ⟨host, List.mem_flatMap.mpr ⟨e, List.mem_of_mem_filter he, hhost⟩, hk⟩

theorem mem_cast_hosts_diff_new {actual saved : List (Int × List Host)}
    {s : HostSource} :
    s ∈ (cast_hosts_diff actual saved).new_host_sources ↔
      s.host_group_id ∈ group_ids_keys actual
      ∧ s.host.id ∈ new_host_ids_for actual saved s.host_group_id
      ∧ host_dict actual s.host.id = some s.host := by
  unfold cast_hosts_diff
  simp only [List.mem_flatMap, List.mem_filterMap, Option.map_eq_some']
  constructor
  · rintro ⟨g, hg, i, hi, host, hd, rfl⟩
    have hid : host.id = i := (dict_last_mem Host.id hd).2
    subst hid
    exact ⟨hg, hi, hd⟩
  · rintro ⟨hg, hi, hd⟩
    exact ⟨s.host_group_id, hg, s.host.id, hi, s.host, hd, rfl⟩

/-- **C8**: the hosts diff is scoped per host group and insertion-only: the new
host sources are exactly one `HostSource(group_id, host)` per (group, host-id)
pair with the host id in the group's actual id set but not in the group's saved
id set (the whole actual set when the group has no saved hosts), the host
record coming from the actual-side dict; the enabled and obsolete lists are
always empty. -/
theorem hosts_diff_insertion_only
    (actual saved : List (Int × List Host)) :
    (((cast_hosts_diff actual saved).new_host_sources.map
        (fun s => (s.host_group_id, s.host.id))).toFinset
      = (group_ids_keys actual).toFinset.biUnion (fun g =>
          ((group_host_ids actual g).toFinset \ (group_host_ids saved g).toFinset).image
            (fun h => (g, h))))
    ∧ (∀ s ∈ (cast_hosts_diff actual saved).new_host_sources,
        host_dict actual s.host.id = some s.host
        ∧ s.host.id ∈ group_host_ids actual s.host_group_id
        ∧ s.host.id ∉ group_host_ids saved s.host_group_id)
    ∧ (cast_hosts_diff actual saved).enabled_host_sources = []
    ∧ (cast_hosts_diff actual saved).obsolete_host_sources = [] := by
  refine ⟨?_, fun s hs => ?_, rfl, rfl⟩
  · ext p
    simp only [List.mem_toFinset, List.mem_map, Finset.mem_biUnion, Finset.mem_image,
      Finset.mem_sdiff]
    constructor
    · rintro ⟨s, hs, rfl⟩
      rcases mem_cast_hosts_diff_new.mp hs with ⟨hg, hi, _⟩
      rcases mem_new_host_ids_for.mp hi with ⟨hin, hout⟩
      exact ⟨s.host_group_id, hg, s.host.id, ⟨by simpa using hin, by simpa using hout⟩, rfl⟩
    · rintro ⟨g, hg, h, ⟨hin, hout⟩, rfl⟩
      have hin' : h ∈ group_host_ids actual g := by simpa using hin
      have hout' : h ∉ group_host_ids saved g := by simpa using hout
      have hsome := group_host_ids_mem_host_dict hin'
      rcases Option.isSome_iff_exists.mp hsome with ⟨host, hd⟩
      have hid : host.id = h := (dict_last_mem Host.id hd).2
      refine ⟨⟨g, host⟩, mem_cast_hosts_diff_new.mpr ⟨hg, ?_, ?_⟩, by simp [hid]⟩
      · simpa [hid] using mem_new_host_ids_for.mpr ⟨hin', hout'⟩
      · simpa [hid] using hd
  · rcases mem_cast_hosts_diff_new.mp hs with ⟨_, hi, hd⟩
    rcases mem_new_host_ids_for.mp hi with ⟨hin, hout⟩
    exact ⟨hd, hin, hout⟩

/-- **C8 witness**: host 10 is already saved under group 1 but newly observed
under group 2 — the diff still inserts it under group 2 (per-group scoping),
and the enabled/obsolete lists are empty. -/
theorem hosts_diff_insertion_only_witness :
    (cast_hosts_diff [(1, [⟨10, "h"⟩]), (2, [⟨10, "h"⟩])]
        [(1, [⟨10, "h"⟩])]).new_host_sources = [⟨2, ⟨10, "h"⟩⟩]
    ∧ (cast_hosts_diff [(1, [⟨10, "h"⟩]), (2, [⟨10, "h"⟩])]
        [(1, [⟨10, "h"⟩])]).enabled_host_sources = []
    ∧ (cast_hosts_diff [(1, [⟨10, "h"⟩]), (2, [⟨10, "h"⟩])]
        [(1, [⟨10, "h"⟩])]).obsolete_host_sources = [] := by
  have h := hosts_diff_insertion_only [(1, [⟨10, "h"⟩]), (2, [⟨10, "h"⟩])]
    [(1, [⟨10, "h"⟩])]
  exact ⟨by decide, h.2.2.1, h.2.2.2⟩

/-! ## The reconciliation tick as a state machine
(`database_actualizer.py` driving `zabbix_controller.py` reads and
`database_gateway.py` mutations) -/

/-- `outer_resources/zabbix_connector.py`: `ZabbixHostGroup`. -/
structure ZabbixHostGroup where
  groupid : Int
  name : String
deriving DecidableEq, Repr

/-- `outer_resources/zabbix_connector.py`: `ZabbixHost`; `group_ids` is a
`frozenset` of group ids, modelled as a list of its elements (duplicates and
order are irrelevant: the consumer only iterates and tests membership). -/
structure ZabbixHost where
  hostid : Int
  name : String
  group_ids : List Int
deriving DecidableEq, Repr

/-- `outer_resources/zabbix_connector.py`: `ZabbixTrigger`; the string fields
that `ZabbixController.get_triggers` parses with `int(...)` are modelled as the
parsed integers. -/
structure ZabbixTrigger where
  triggerid : Int
  description : String
  priority : Int
  host_id : Int
deriving DecidableEq, Repr

/-- The Snapshot Source's structural inventory: the three reads the
reconciliation engine performs. -/
structure ZabbixInventory where
  host_groups : List ZabbixHostGroup
  hosts : List ZabbixHost
  triggers : List ZabbixTrigger
deriving DecidableEq, Repr

/-- `ZabbixController.get_host_groups` (zabbix_controller.py:41-43):
`HostGroup(id=int(groupid), title=name)` — `disabled_at` takes its `None`
dataclass default. -/
def zabbix_get_host_groups (inv : ZabbixInventory) : List HostGroup :=
  inv.host_groups.map (fun group => ⟨group.groupid, group.name, none⟩)

/-- `ZabbixController.get_host_group_id_to_hosts` (zabbix_controller.py:45-51):
the `group_id -> [Host]` dict built with `setdefault(...).append(...)`; its keys
are exactly the group ids occurring in some host's `group_ids`, each key's list
holds the hosts of that group in host-iteration order. -/
def zabbix_get_host_group_id_to_hosts (inv : ZabbixInventory) :
    List (Int × List Host) :=
  ((inv.hosts.flatMap ZabbixHost.group_ids).dedup).map (fun group_id =>
    (group_id,
      (inv.hosts.filter (fun h => group_id ∈ h.group_ids)).map
        (fun h => ⟨h.hostid, h.name⟩)))

/-- `ZabbixController.get_triggers` (zabbix_controller.py:53-63). -/
def zabbix_get_triggers (inv : ZabbixInventory) : List Trigger :=
  inv.triggers.map (fun t => ⟨t.triggerid, t.description, t.priority, t.host_id, none⟩)

/-- The Persisted Mirror: the four tables the reconciliation engine touches. -/
structure MirrorState where
  host_groups : List HostGroup
  hosts : List Host
  host_to_host_groups : List HostToHostGroup
  triggers : List Trigger
deriving DecidableEq, Repr

/-- `DatabaseGateway.enable_host_groups` (database_gateway.py:179-191):
`UPDATE host_group SET disabled_at = NULL WHERE id IN ids`. -/
def enable_host_groups_rows (host_group_ids : List Int) (rows : List HostGroup) :
    List HostGroup :=
  rows.map (fun g =>
    if g.id ∈ host_group_ids then { g with disabled_at := none } else g)

/-- `DatabaseGateway.disable_host_groups` (database_gateway.py:193-205):
`UPDATE host_group SET disabled_at = get_current_time_sec() WHERE id IN ids`. -/
def disable_host_groups_rows (now : Int) (host_group_ids : List Int)
    (rows : List HostGroup) : List HostGroup :=
  rows.map (fun g =>
    if g.id ∈ host_group_ids then { g with disabled_at := some now } else g)

/-- `DatabaseGateway.get_hosts_by_host_group_id` (database_gateway.py:71-83):
`Host JOIN host_to_host_group ON host_id = Host.id JOIN host_group ON
host_group.id = host_group_id WHERE host_group.id = ?`.  Each matching host row
is listed once (SQL join multiplicities are irrelevant: the consumer aggregates
the ids into sets). -/
def get_hosts_by_host_group_id (st : MirrorState) (host_group_id : Int) :
    List Host :=
  st.hosts.filter (fun h =>
    (st.host_to_host_groups.any
      (fun link => link.host_id = h.id && link.host_group_id = host_group_id))
    && st.host_groups.any (fun g => g.id = host_group_id))

/-- `DatabaseActualizer._get_host_group_id_to_hosts`
(database_actualizer.py:248-257): the saved `group_id -> [Host]` mapping, one
entry per selected host-group row. -/
def db_host_group_id_to_hosts (st : MirrorState) : List (Int × List Host) :=
  (db_select HostGroup.id st.host_groups).map
    (fun g => (g.id, get_hosts_by_host_group_id st g.id))

/-- The three bulk mutations `_actualize_host_groups` issues
(database_actualizer.py:102-108): `insert(diff.new_host_groups)`,
`enable_host_groups([g.id for g in diff.enabled_host_groups])`,
`disable_host_groups([g.id for g in diff.obsolete_host_groups])`. -/
structure HostGroupMutations where
  inserted : List HostGroup
  enabled_ids : List Int
  disabled_ids : List Int
deriving DecidableEq, Repr

def host_group_mutations (inv : ZabbixInventory) (st : MirrorState) :
    HostGroupMutations :=
  let diff := cast_host_groups_diff (zabbix_get_host_groups inv)
    (db_select HostGroup.id st.host_groups)
  { inserted := diff.new_host_groups,
    enabled_ids := diff.enabled_host_groups.map HostGroup.id,
    disabled_ids := diff.obsolete_host_groups.map HostGroup.id }

/-- `DatabaseActualizer._actualize_host_groups` (database_actualizer.py:93-108)
as a state transformation: insert the new rows, then enable, then disable. -/
def actualize_host_groups (inv : ZabbixInventory) (now : Int) (st : MirrorState) :
    MirrorState :=
  let m := host_group_mutations inv st
  let rows := disable_host_groups_rows now m.disabled_ids
    (enable_host_groups_rows m.enabled_ids (st.host_groups ++ m.inserted))
  { st with host_groups := rows }

/-- `DatabaseActualizer._actualize_hosts` (database_actualizer.py:147-162):
the new host sources of the hosts diff between the Zabbix mapping and the saved
mapping (insertion is the only mutation this step performs). -/
def hosts_mutations (inv : ZabbixInventory) (st : MirrorState) : List HostSource :=
  (cast_hosts_diff (zabbix_get_host_group_id_to_hosts inv)
    (db_host_group_id_to_hosts st)).new_host_sources

/-- `DatabaseActualizer._insert_host_sources` (database_actualizer.py:198-207)
applied to the hosts diff: one `Host` row and one `HostToHostGroup` row per new
host source. -/
def actualize_hosts (inv : ZabbixInventory) (st : MirrorState) : MirrorState :=
  let new_sources := hosts_mutations inv st
  { st with
      hosts := st.hosts ++ new_sources.map HostSource.host,
      host_to_host_groups := st.host_to_host_groups
        ++ new_sources.map (fun s => ⟨s.host.id, s.host_group_id⟩) }

/-- `DatabaseActualizer._actualize_triggers` (database_actualizer.py:209-223):
the full triggers diff is computed, but the only gateway call issued is
`insert(triggers_diff.appeared_triggers)`; no enable or disable follows (the
log line nevertheless reports the enabled/disabled counts, and `DatabaseGateway`
has no `enable_triggers`/`disable_triggers` operation at all). -/
def trigger_mutations (inv : ZabbixInventory) (st : MirrorState) : List Trigger :=
  (cast_triggers_diff (zabbix_get_triggers inv)
    (db_select Trigger.id st.triggers)).appeared_triggers

def actualize_triggers (inv : ZabbixInventory) (st : MirrorState) : MirrorState :=
  { st with triggers := st.triggers ++ trigger_mutations inv st }

/-- The bulk operations one reconciliation tick applies, in source order
(host groups, hosts, triggers —
`_actualize_monitoring_system_structure`, database_actualizer.py:84-91). -/
structure ReconcileTrace where
  host_group_inserted : List HostGroup
  host_group_enabled_ids : List Int
  host_group_disabled_ids : List Int
  host_sources_inserted : List HostSource
  triggers_inserted : List Trigger
deriving DecidableEq, Repr

/-- One reconciliation tick: the three sub-reconciliations in source order,
returning both the applied mutations and the resulting mirror state. -/
def reconcile_trace (inv : ZabbixInventory) (now : Int) (st : MirrorState) :
    ReconcileTrace × MirrorState :=
  let m1 := host_group_mutations inv st
  let st1 := actualize_host_groups inv now st
  let hs := hosts_mutations inv st1
  let st2 := actualize_hosts inv st1
  let mt := trigger_mutations inv st2
  let st3 := actualize_triggers inv st2
  (⟨m1.inserted, m1.enabled_ids, m1.disabled_ids, hs, mt⟩, st3)

/-- One reconciliation tick, state only. -/
def reconcile (inv : ZabbixInventory) (now : Int) (st : MirrorState) : MirrorState :=
  (reconcile_trace inv now st).2

/-- **C2** (failing input, evaluated): with the mirror holding trigger 1
disabled (`disabled_at = 5`) and trigger 2 active, and Zabbix reporting exactly
trigger 1, the computed diff demands enable([1]) and disable([2]) — but the
tick leaves the mirror bit-for-bit unchanged: `_actualize_triggers` issues only
the insert (empty here) and never applies the enable/disable lists it computes
(and logs). -/
theorem actualize_triggers_drops_enable_and_disable :
    (cast_triggers_diff
        (zabbix_get_triggers ⟨[], [], [⟨1, "t", 2, 1⟩]⟩)
        (db_select Trigger.id
          [⟨1, "t", 2, 1, some 5⟩, ⟨2, "u", 2, 1, none⟩])).enabled_triggers
      = [⟨1, "t", 2, 1, some 5⟩]
    ∧ (cast_triggers_diff
        (zabbix_get_triggers ⟨[], [], [⟨1, "t", 2, 1⟩]⟩)
        (db_select Trigger.id
          [⟨1, "t", 2, 1, some 5⟩, ⟨2, "u", 2, 1, none⟩])).obsolete_triggers
      = [⟨2, "u", 2, 1, none⟩]
    ∧ reconcile ⟨[], [], [⟨1, "t", 2, 1⟩]⟩ 99
        ⟨[], [], [], [⟨1, "t", 2, 1, some 5⟩, ⟨2, "u", 2, 1, none⟩]⟩
      = ⟨[], [], [], [⟨1, "t", 2, 1, some 5⟩, ⟨2, "u", 2, 1, none⟩]⟩ := by
  refine ⟨by decide, by decide, by decide⟩

/-- **C7 counterexample**: with the mirror holding trigger 1 disabled and
Zabbix reporting trigger 1, a first `reconcile()` applies nothing for triggers
(the enable it computes is dropped), so the *second* run's computed trigger
enable set is again non-empty — refuting "zero mutations on the second run
(empty insert, enable, and disable sets for host groups, hosts, and
triggers)". -/
theorem reconcile_second_run_trigger_enable_counterexample :
    (cast_triggers_diff
        (zabbix_get_triggers ⟨[], [], [⟨1, "t", 2, 1⟩]⟩)
        (db_select Trigger.id
          (reconcile ⟨[], [], [⟨1, "t", 2, 1⟩]⟩ 7
            ⟨[], [], [], [⟨1, "t", 2, 1, some 5⟩]⟩).triggers)).enabled_triggers
      ≠ [] := by
  decide

/-! ### Idempotence of the reconciliation tick -/

/-- The id set of the rows a `select` returns ("visible" rows: positive id). -/
def visible_ids {α : Type} (id : α → Int) (rows : List α) : Finset Int :=
  key_finset id (db_select id rows)

/-- The id set of the visible rows whose `disabled_at` is truthy — the ids the
diff's partition step classifies as disabled. -/
def visible_disabled_ids {α : Type} (id : α → Int) (dis : α → Option Int)
    (rows : List α) : Finset Int :=
  key_finset id ((db_select id rows).filter (fun a => truthy (dis a)))

theorem mem_visible_ids {α : Type} {id : α → Int} {rows : List α} {i : Int} :
    i ∈ visible_ids id rows ↔ ∃ a ∈ rows, id a = i ∧ 0 < i := by
  simp only [visible_ids, key_finset, db_select, List.mem_toFinset, List.mem_map,
    List.mem_filter, decide_eq_true_eq]
  constructor
  · rintro ⟨a, ⟨ha, hpos⟩, rfl⟩
    exact ⟨a, ha, rfl, hpos⟩
  · rintro ⟨a, ha, rfl, hpos⟩
    exact ⟨a, ⟨ha, hpos⟩, rfl⟩

theorem mem_visible_disabled_ids {α : Type} {id : α → Int} {dis : α → Option Int}
    {rows : List α} {i : Int} :
    i ∈ visible_disabled_ids id dis rows ↔
      ∃ a ∈ rows, id a = i ∧ 0 < i ∧ truthy (dis a) = true := by
  simp only [visible_disabled_ids, key_finset, db_select, List.mem_toFinset,
    List.mem_map, List.mem_filter, decide_eq_true_eq]
  constructor
  · rintro ⟨a, ⟨⟨ha, hpos⟩, htr⟩, rfl⟩
    exact ⟨a, ha, rfl, hpos, htr⟩
  · rintro ⟨a, ha, rfl, hpos, htr⟩
    exact ⟨a, ⟨⟨ha, hpos⟩, htr⟩, rfl⟩

theorem host_group_mutations_inserted_ids (inv : ZabbixInventory) (st : MirrorState) :
    ((host_group_mutations inv st).inserted.map HostGroup.id).toFinset
      = key_finset HostGroup.id (zabbix_get_host_groups inv)
        \ visible_ids HostGroup.id st.host_groups :=
  hg_diff_new_ids _ _

theorem host_group_mutations_enabled_ids (inv : ZabbixInventory) (st : MirrorState) :
    (host_group_mutations inv st).enabled_ids.toFinset
      = visible_disabled_ids HostGroup.id HostGroup.disabled_at st.host_groups
        ∩ key_finset HostGroup.id (zabbix_get_host_groups inv) :=
  hg_diff_enabled_ids _ _

theorem host_group_mutations_disabled_ids (inv : ZabbixInventory) (st : MirrorState) :
    (host_group_mutations inv st).disabled_ids.toFinset
      = (visible_ids HostGroup.id st.host_groups
          \ visible_disabled_ids HostGroup.id HostGroup.disabled_at st.host_groups)
        \ key_finset HostGroup.id (zabbix_get_host_groups inv) :=
  hg_diff_obsolete_ids _ _

theorem host_group_mutations_inserted_not_disabled (inv : ZabbixInventory)
    (st : MirrorState) :
    ∀ g ∈ (host_group_mutations inv st).inserted, g.disabled_at = none := by
  intro g hg
  have hd := (mem_pick_list HostGroup.id |>.mp hg).2
  have hmem := (dict_last_mem HostGroup.id hd).1
  rcases List.mem_map.mp hmem with ⟨zg, _, rfl⟩
  rfl

theorem zabbix_host_group_ids_pos (inv : ZabbixInventory)
    (hg_pos : ∀ g ∈ inv.host_groups, 0 < g.groupid) :
    ∀ i ∈ key_finset HostGroup.id (zabbix_get_host_groups inv), 0 < i := by
  intro i hi
  simp only [key_finset, zabbix_get_host_groups, List.map_map, List.mem_toFinset,
    List.mem_map, Function.comp] at hi
  rcases hi with ⟨zg, hzg, rfl⟩
  exact hg_pos zg hzg

/-- The per-row effect of the enable-then-disable updates of one host-group
reconciliation step. -/
def hg_row_update (enabled_ids disabled_ids : List Int) (now : Int)
    (g : HostGroup) : HostGroup :=
  let g1 := if g.id ∈ enabled_ids then { g with disabled_at := none } else g
  if g1.id ∈ disabled_ids then { g1 with disabled_at := some now } else g1

theorem enable_disable_rows_eq_map (en dis : List Int) (now : Int)
    (rows : List HostGroup) :
    disable_host_groups_rows now dis (enable_host_groups_rows en rows)
      = rows.map (hg_row_update en dis now) := by
  unfold disable_host_groups_rows enable_host_groups_rows hg_row_update
  rw [List.map_map]
  rfl

theorem hg_row_update_id (en dis : List Int) (now : Int) (g : HostGroup) :
    (hg_row_update en dis now g).id = g.id := by
  unfold hg_row_update
  by_cases h1 : g.id ∈ en <;> by_cases h2 : g.id ∈ dis <;> simp [h1, h2]

theorem hg_row_update_disabled_at (en dis : List Int) (now : Int) (g : HostGroup) :
    (hg_row_update en dis now g).disabled_at
      = if g.id ∈ dis then some now
        else if g.id ∈ en then none else g.disabled_at := by
  unfold hg_row_update
  by_cases h1 : g.id ∈ en <;> by_cases h2 : g.id ∈ dis <;> simp [h1, h2]

theorem actualize_host_groups_rows (inv : ZabbixInventory) (now : Int)
    (st : MirrorState) :
    (actualize_host_groups inv now st).host_groups
      = (st.host_groups ++ (host_group_mutations inv st).inserted).map
          (hg_row_update (host_group_mutations inv st).enabled_ids
            (host_group_mutations inv st).disabled_ids now) :=
  enable_disable_rows_eq_map _ _ _ _

/-- After one host-group reconciliation step, the visible ids are the union of
the previously visible ids and the actual (Zabbix) ids. -/
theorem actualize_host_groups_visible (inv : ZabbixInventory) (now : Int)
    (st : MirrorState)
    (hA_pos : ∀ i ∈ key_finset HostGroup.id (zabbix_get_host_groups inv), 0 < i) :
    visible_ids HostGroup.id (actualize_host_groups inv now st).host_groups
      = visible_ids HostGroup.id st.host_groups
        ∪ key_finset HostGroup.id (zabbix_get_host_groups inv) := by
  ext i
  rw [actualize_host_groups_rows, mem_visible_ids, Finset.mem_union, mem_visible_ids]
  constructor
  · rintro ⟨r, hr, hid, hpos⟩
    rcases List.mem_map.mp hr with ⟨r0, hr0, rfl⟩
    rw [hg_row_update_id] at hid
    rcases List.mem_append.mp hr0 with h0 | h0
    · exact Or.inl ⟨r0, h0, hid, hpos⟩
    · right
      have hins : r0.id ∈
          ((host_group_mutations inv st).inserted.map HostGroup.id).toFinset :=
        List.mem_toFinset.mpr (List.mem_map_of_mem _ h0)
      rw [host_group_mutations_inserted_ids] at hins
      rw [← hid]
      exact (Finset.mem_sdiff.mp hins).1
  · intro h
    have hwitness : ∀ r0 ∈ st.host_groups ++ (host_group_mutations inv st).inserted,
        r0.id = i → 0 < i →
        ∃ r ∈ (st.host_groups ++ (host_group_mutations inv st).inserted).map
            (hg_row_update (host_group_mutations inv st).enabled_ids
              (host_group_mutations inv st).disabled_ids now),
          r.id = i ∧ 0 < i := by
      intro r0 h0 hid hpos
      exact ⟨_, List.mem_map_of_mem _ h0, by rw [hg_row_update_id]; exact hid, hpos⟩
    rcases h with h | h
    · rcases h with ⟨r0, h0, hid, hpos⟩
      exact hwitness r0 (List.mem_append.mpr (Or.inl h0)) hid hpos
    · by_cases hV : i ∈ visible_ids HostGroup.id st.host_groups
      · rcases mem_visible_ids.mp hV with ⟨r0, h0, hid, hpos⟩
        exact hwitness r0 (List.mem_append.mpr (Or.inl h0)) hid hpos
      · have hins : i ∈
            ((host_group_mutations inv st).inserted.map HostGroup.id).toFinset := by
          rw [host_group_mutations_inserted_ids]
          exact Finset.mem_sdiff.mpr ⟨h, hV⟩
        rcases List.mem_map.mp (List.mem_toFinset.mp hins) with ⟨r0, h0, hid⟩
        exact hwitness r0 (List.mem_append.mpr (Or.inr h0)) hid (hA_pos i h)

/-- After one host-group reconciliation step, the truthy-disabled visible ids
are exactly the previously visible ids absent from the actual ids. -/
theorem actualize_host_groups_disabled (inv : ZabbixInventory) (now : Int)
    (st : MirrorState) (hnow : now ≠ 0) :
    visible_disabled_ids HostGroup.id HostGroup.disabled_at
        (actualize_host_groups inv now st).host_groups
      = visible_ids HostGroup.id st.host_groups
        \ key_finset HostGroup.id (zabbix_get_host_groups inv) := by
  have hmem_en : ∀ j : Int, j ∈ (host_group_mutations inv st).enabled_ids ↔
      j ∈ visible_disabled_ids HostGroup.id HostGroup.disabled_at st.host_groups
        ∩ key_finset HostGroup.id (zabbix_get_host_groups inv) := by
    intro j
    rw [← List.mem_toFinset, host_group_mutations_enabled_ids]
  have hmem_dis : ∀ j : Int, j ∈ (host_group_mutations inv st).disabled_ids ↔
      j ∈ (visible_ids HostGroup.id st.host_groups
          \ visible_disabled_ids HostGroup.id HostGroup.disabled_at st.host_groups)
        \ key_finset HostGroup.id (zabbix_get_host_groups inv) := by
    intro j
    rw [← List.mem_toFinset, host_group_mutations_disabled_ids]
  ext i
  rw [actualize_host_groups_rows, mem_visible_disabled_ids, Finset.mem_sdiff]
  constructor
  · rintro ⟨r, hr, hid, hpos, htr⟩
    rcases List.mem_map.mp hr with ⟨r0, hr0, rfl⟩
    rw [hg_row_update_id] at hid
    rw [hg_row_update_disabled_at] at htr
    subst hid
    by_cases hdis : r0.id ∈ (host_group_mutations inv st).disabled_ids
    · have := (hmem_dis r0.id).mp hdis
      rw [Finset.mem_sdiff, Finset.mem_sdiff] at this
      exact ⟨this.1.1, this.2⟩
    · rw [if_neg hdis] at htr
      by_cases hen : r0.id ∈ (host_group_mutations inv st).enabled_ids
      · rw [if_pos hen] at htr
        simp [truthy] at htr
      · rw [if_neg hen] at htr
        rcases List.mem_append.mp hr0 with h0 | h0
        · have hD : r0.id ∈ visible_disabled_ids HostGroup.id HostGroup.disabled_at
              st.host_groups :=
            mem_visible_disabled_ids.mpr ⟨r0, h0, rfl, hpos, htr⟩
          have hV : r0.id ∈ visible_ids HostGroup.id st.host_groups := by
            rw [mem_visible_ids]
            exact ⟨r0, h0, rfl, hpos⟩
          have hA : r0.id ∉ key_finset HostGroup.id (zabbix_get_host_groups inv) := by
            intro hA
            exact hen ((hmem_en r0.id).mpr (Finset.mem_inter.mpr ⟨hD, hA⟩))
          exact ⟨hV, hA⟩
        · have := host_group_mutations_inserted_not_disabled inv st r0 h0
          rw [this] at htr
          simp [truthy] at htr
  · rintro ⟨hV, hA⟩
    by_cases hD : i ∈ visible_disabled_ids HostGroup.id HostGroup.disabled_at
        st.host_groups
    · rcases mem_visible_disabled_ids.mp hD with ⟨r0, h0, hid, hpos, htr⟩
      refine ⟨hg_row_update (host_group_mutations inv st).enabled_ids
          (host_group_mutations inv st).disabled_ids now r0,
        List.mem_map_of_mem _ (List.mem_append.mpr (Or.inl h0)),
        by rw [hg_row_update_id]; exact hid, hpos, ?_⟩
      rw [hg_row_update_disabled_at]
      have hdis : r0.id ∉ (host_group_mutations inv st).disabled_ids := by
        rw [hmem_dis, hid]
        intro hcon
        exact (Finset.mem_sdiff.mp (Finset.mem_sdiff.mp hcon).1).2 hD
      have hen : r0.id ∉ (host_group_mutations inv st).enabled_ids := by
        rw [hmem_en, hid]
        intro hcon
        exact hA (Finset.mem_inter.mp hcon).2
      rw [if_neg hdis, if_neg hen]
      exact htr
    · rcases mem_visible_ids.mp hV with ⟨r0, h0, hid, hpos⟩
      refine ⟨hg_row_update (host_group_mutations inv st).enabled_ids
          (host_group_mutations inv st).disabled_ids now r0,
        List.mem_map_of_mem _ (List.mem_append.mpr (Or.inl h0)),
        by rw [hg_row_update_id]; exact hid, hpos, ?_⟩
      rw [hg_row_update_disabled_at]
      have hdis : r0.id ∈ (host_group_mutations inv st).disabled_ids := by
        rw [hmem_dis, hid]
        exact Finset.mem_sdiff.mpr ⟨Finset.mem_sdiff.mpr ⟨hV, hD⟩, hA⟩
      rw [if_pos hdis]
      simpa [truthy] using hnow

theorem list_eq_nil_of_map_toFinset_empty {α : Type} {key : α → Int} {l : List α}
    (h : ((l.map key).toFinset : Finset Int) = ∅) : l = [] :=
  List.map_eq_nil_iff.mp ((List.toFinset_eq_empty_iff _).mp h)

/-- If the actual host-group ids are all visible, no visible disabled id is
actual, and every visible non-disabled id is actual, then the host-group
reconciliation step computes empty mutation lists. -/
theorem host_group_mutations_empty (inv : ZabbixInventory) (st' : MirrorState)
    (hvis : key_finset HostGroup.id (zabbix_get_host_groups inv)
        ⊆ visible_ids HostGroup.id st'.host_groups)
    (hdis : visible_disabled_ids HostGroup.id HostGroup.disabled_at st'.host_groups
        ∩ key_finset HostGroup.id (zabbix_get_host_groups inv) = ∅)
    (hobs : (visible_ids HostGroup.id st'.host_groups
          \ visible_disabled_ids HostGroup.id HostGroup.disabled_at st'.host_groups)
        \ key_finset HostGroup.id (zabbix_get_host_groups inv) = ∅) :
    host_group_mutations inv st' = ⟨[], [], []⟩ := by
  have h1 : (host_group_mutations inv st').inserted = [] := by
    apply list_eq_nil_of_map_toFinset_empty
    rw [host_group_mutations_inserted_ids]
    exact Finset.sdiff_eq_empty_iff_subset.mpr hvis
  have h2 : (host_group_mutations inv st').enabled_ids = [] := by
    apply (List.toFinset_eq_empty_iff _).mp
    rw [host_group_mutations_enabled_ids]
    exact hdis
  have h3 : (host_group_mutations inv st').disabled_ids = [] := by
    apply (List.toFinset_eq_empty_iff _).mp
    rw [host_group_mutations_disabled_ids]
    exact hobs
  have heta : host_group_mutations inv st'
      = ⟨(host_group_mutations inv st').inserted,
          (host_group_mutations inv st').enabled_ids,
          (host_group_mutations inv st').disabled_ids⟩ := rfl
  rw [heta, h1, h2, h3]

/-- Applying empty host-group mutations leaves the state unchanged. -/
theorem actualize_host_groups_identity (inv : ZabbixInventory) (now : Int)
    (st' : MirrorState) (hm : host_group_mutations inv st' = ⟨[], [], []⟩) :
    actualize_host_groups inv now st' = st' := by
  unfold actualize_host_groups
  rw [hm]
  simp [disable_host_groups_rows, enable_host_groups_rows]

theorem reconcile_host_groups_eq (inv : ZabbixInventory) (now : Int)
    (st : MirrorState) :
    (reconcile inv now st).host_groups
      = (actualize_host_groups inv now st).host_groups := rfl

theorem reconcile_triggers_eq (inv : ZabbixInventory) (now : Int) (st : MirrorState) :
    (reconcile inv now st).triggers = st.triggers ++ trigger_mutations inv st := rfl

theorem zabbix_trigger_ids_pos (inv : ZabbixInventory)
    (ht_pos : ∀ t ∈ inv.triggers, 0 < t.triggerid) :
    ∀ i ∈ key_finset Trigger.id (zabbix_get_triggers inv), 0 < i := by
  intro i hi
  simp only [key_finset, zabbix_get_triggers, List.map_map, List.mem_toFinset,
    List.mem_map, Function.comp] at hi
  rcases hi with ⟨zt, hzt, rfl⟩
  exact ht_pos zt hzt

theorem trigger_mutations_ids (inv : ZabbixInventory) (st : MirrorState) :
    ((trigger_mutations inv st).map Trigger.id).toFinset
      = key_finset Trigger.id (zabbix_get_triggers inv)
        \ visible_ids Trigger.id st.triggers :=
  trigger_diff_new_ids _ _

/-- After one tick, the visible trigger ids are the union of the previously
visible ids and the actual ids (only inserts happen for triggers). -/
theorem reconcile_trigger_visible (inv : ZabbixInventory) (now : Int)
    (st : MirrorState)
    (hT_pos : ∀ i ∈ key_finset Trigger.id (zabbix_get_triggers inv), 0 < i) :
    visible_ids Trigger.id (reconcile inv now st).triggers
      = visible_ids Trigger.id st.triggers
        ∪ key_finset Trigger.id (zabbix_get_triggers inv) := by
  rw [reconcile_triggers_eq]
  ext i
  rw [mem_visible_ids, Finset.mem_union, mem_visible_ids]
  constructor
  · rintro ⟨t, ht, hid, hpos⟩
    rcases List.mem_append.mp ht with h0 | h0
    · exact Or.inl ⟨t, h0, hid, hpos⟩
    · right
      have hins : t.id ∈ ((trigger_mutations inv st).map Trigger.id).toFinset :=
        List.mem_toFinset.mpr (List.mem_map_of_mem _ h0)
      rw [trigger_mutations_ids] at hins
      rw [← hid]
      exact (Finset.mem_sdiff.mp hins).1
  · intro h
    rcases h with ⟨t, h0, hid, hpos⟩ | hA
    · exact ⟨t, List.mem_append.mpr (Or.inl h0), hid, hpos⟩
    · by_cases hV : i ∈ visible_ids Trigger.id st.triggers
      · rcases mem_visible_ids.mp hV with ⟨t, h0, hid, hpos⟩
        exact ⟨t, List.mem_append.mpr (Or.inl h0), hid, hpos⟩
      · have hins : i ∈ ((trigger_mutations inv st).map Trigger.id).toFinset := by
          rw [trigger_mutations_ids]
          exact Finset.mem_sdiff.mpr ⟨hA, hV⟩
        rcases List.mem_map.mp (List.mem_toFinset.mp hins) with ⟨t, h0, hid⟩
        exact ⟨t, List.mem_append.mpr (Or.inr h0), hid, hT_pos i hA⟩

theorem trigger_mutations_empty (inv : ZabbixInventory) (st' : MirrorState)
    (hvis : key_finset Trigger.id (zabbix_get_triggers inv)
        ⊆ visible_ids Trigger.id st'.triggers) :
    trigger_mutations inv st' = [] :=
  list_eq_nil_of_map_toFinset_empty
    (by rw [trigger_mutations_ids]; exact Finset.sdiff_eq_empty_iff_subset.mpr hvis)

theorem actualize_triggers_identity (inv : ZabbixInventory) (st' : MirrorState)
    (h : trigger_mutations inv st' = []) : actualize_triggers inv st' = st' := by
  unfold actualize_triggers
  rw [h, List.append_nil]

theorem mem_zabbix_group_host_ids {inv : ZabbixInventory} {g i : Int} :
    i ∈ group_host_ids (zabbix_get_host_group_id_to_hosts inv) g ↔
      ∃ zh ∈ inv.hosts, g ∈ zh.group_ids ∧ zh.hostid = i := by
  unfold group_host_ids
  rw [mem_ids_list]
  simp only [key_finset, List.mem_toFinset, List.mem_map]
  constructor
  · rintro ⟨host, hmem, rfl⟩
    rcases List.mem_flatMap.mp hmem with ⟨e, he, hhost⟩
    have hkey : e.1 = g := by simpa using List.of_mem_filter he
    have hm : e ∈ zabbix_get_host_group_id_to_hosts inv := List.mem_of_mem_filter he
    unfold zabbix_get_host_group_id_to_hosts at hm
    rcases List.mem_map.mp hm with ⟨gid, _, rfl⟩
    simp only at hkey
    subst hkey
    rcases List.mem_map.mp hhost with ⟨zh, hzh, rfl⟩
    exact ⟨zh, List.mem_of_mem_filter hzh, by simpa using List.of_mem_filter hzh, rfl⟩
  · rintro ⟨zh, hzh, hg, rfl⟩
    refine ⟨⟨zh.hostid, zh.name⟩, ?_, rfl⟩
    apply List.mem_flatMap.mpr
    refine ⟨(g, (inv.hosts.filter (fun h => g ∈ h.group_ids)).map
        (fun h => ⟨h.hostid, h.name⟩)), ?_, ?_⟩
    · apply List.mem_filter.mpr
      refine ⟨?_, by simp⟩
      unfold zabbix_get_host_group_id_to_hosts
      apply List.mem_map.mpr
      refine ⟨g, ?_, rfl⟩
      rw [List.mem_dedup]
      exact List.mem_flatMap.mpr ⟨zh, hzh, hg⟩
    · exact List.mem_map_of_mem _ (List.mem_filter.mpr ⟨hzh, by simpa using hg⟩)

theorem mem_get_hosts_by_host_group_id {st : MirrorState} {g : Int} {h : Host} :
    h ∈ get_hosts_by_host_group_id st g ↔
      h ∈ st.hosts
      ∧ (∃ link ∈ st.host_to_host_groups, link.host_id = h.id ∧ link.host_group_id = g)
      ∧ (∃ gr ∈ st.host_groups, gr.id = g) := by
  simp only [get_hosts_by_host_group_id, List.mem_filter, Bool.and_eq_true,
    List.any_eq_true, Bool.and_eq_true, decide_eq_true_eq, and_assoc]

theorem mem_db_group_host_ids {st : MirrorState} {g i : Int} :
    i ∈ group_host_ids (db_host_group_id_to_hosts st) g ↔
      (∃ row ∈ st.host_groups, row.id = g ∧ 0 < g)
      ∧ ∃ h ∈ get_hosts_by_host_group_id st g, h.id = i := by
  unfold group_host_ids
  rw [mem_ids_list]
  simp only [key_finset, List.mem_toFinset, List.mem_map]
  constructor
  · rintro ⟨host, hmem, rfl⟩
    rcases List.mem_flatMap.mp hmem with ⟨e, he, hhost⟩
    have hkey : e.1 = g := by simpa using List.of_mem_filter he
    have hm : e ∈ db_host_group_id_to_hosts st := List.mem_of_mem_filter he
    unfold db_host_group_id_to_hosts at hm
    rcases List.mem_map.mp hm with ⟨row, hrow, rfl⟩
    simp only at hkey
    subst hkey
    have hrowmem : row ∈ st.host_groups ∧ 0 < row.id := by
      have := List.mem_filter.mp hrow
      exact ⟨this.1, by simpa using this.2⟩
    exact ⟨⟨row, hrowmem.1, rfl, hrowmem.2⟩, host, hhost, rfl⟩
  · rintro ⟨⟨row, hrow, hrid, hpos⟩, host, hhost, rfl⟩
    refine ⟨host, ?_, rfl⟩
    apply List.mem_flatMap.mpr
    refine ⟨(row.id, get_hosts_by_host_group_id st row.id), ?_, ?_⟩
    · apply List.mem_filter.mpr
      refine ⟨?_, by simpa using hrid⟩
      unfold db_host_group_id_to_hosts
      apply List.mem_map.mpr
      refine ⟨row, ?_, rfl⟩
      exact List.mem_filter.mpr ⟨hrow, by simp [hrid ▸ hpos]⟩
    · simpa [hrid] using hhost

theorem group_ids_keys_of_mem {m : List (Int × List Host)} {g i : Int}
    (h : i ∈ group_host_ids m g) : g ∈ group_ids_keys m := by
  unfold group_host_ids at h
  rw [mem_ids_list] at h
  simp only [key_finset, List.mem_toFinset, List.mem_map] at h
  rcases h with ⟨host, hmem, _⟩
  rcases List.mem_flatMap.mp hmem with ⟨e, he, hhost⟩
  have hkey : e.1 = g := by simpa using List.of_mem_filter he
  unfold group_ids_keys
  rw [List.mem_dedup]
  apply List.mem_map.mpr
  refine ⟨e, ?_, hkey⟩
  apply List.mem_filter.mpr
  refine ⟨List.mem_of_mem_filter he, ?_⟩
  simp only [decide_eq_true_eq]
  intro hempty
  rw [List.isEmpty_iff] at hempty
  rw [hempty] at hhost
  simp at hhost

theorem mem_zabbix_host_group_key_finset {inv : ZabbixInventory} {g : Int} :
    g ∈ key_finset HostGroup.id (zabbix_get_host_groups inv) ↔
      g ∈ inv.host_groups.map ZabbixHostGroup.groupid := by
  simp [key_finset, zabbix_get_host_groups, List.map_map, Function.comp]

/-- After one full tick, every (group, host) pair of the Zabbix mapping is
present in the saved mapping the next tick reads: the group row is visible, the
host row exists, and the join row links them. -/
theorem reconcile_host_coverage (inv : ZabbixInventory) (now : Int) (st : MirrorState)
    (hA_pos : ∀ i ∈ key_finset HostGroup.id (zabbix_get_host_groups inv), 0 < i)
    (hcons : ∀ h ∈ inv.hosts, ∀ gid ∈ h.group_ids,
        gid ∈ inv.host_groups.map ZabbixHostGroup.groupid) :
    ∀ g i : Int, i ∈ group_host_ids (zabbix_get_host_group_id_to_hosts inv) g →
      i ∈ group_host_ids (db_host_group_id_to_hosts (reconcile inv now st)) g := by
  intro g i hi
  rcases mem_zabbix_group_host_ids.mp hi with ⟨zh, hzh, hgid, hid⟩
  have hgA : g ∈ key_finset HostGroup.id (zabbix_get_host_groups inv) :=
    mem_zabbix_host_group_key_finset.mpr (hcons zh hzh g hgid)
  have hgvis : g ∈ visible_ids HostGroup.id (reconcile inv now st).host_groups := by
    rw [reconcile_host_groups_eq, actualize_host_groups_visible inv now st hA_pos]
    exact Finset.mem_union_right _ hgA
  rcases mem_visible_ids.mp hgvis with ⟨row, hrow, hrid, hgpos⟩
  apply mem_db_group_host_ids.mpr
  refine ⟨⟨row, hrow, hrid, hgpos⟩, ?_⟩
  by_cases hsaved :
      i ∈ group_host_ids (db_host_group_id_to_hosts (actualize_host_groups inv now st)) g
  · rcases (mem_db_group_host_ids.mp hsaved).2 with ⟨h, hh, hhid⟩
    rcases mem_get_hosts_by_host_group_id.mp hh with
      ⟨hhosts, ⟨link, hlink, hlid, hlg⟩, ⟨gr, hgr, hgrid⟩⟩
    refine ⟨h, mem_get_hosts_by_host_group_id.mpr ⟨?_, ⟨link, ?_, hlid, hlg⟩,
      ⟨gr, hgr, hgrid⟩⟩, hhid⟩
    · exact List.mem_append.mpr (Or.inl hhosts)
    · exact List.mem_append.mpr (Or.inl hlink)
  · have hnew : i ∈ new_host_ids_for (zabbix_get_host_group_id_to_hosts inv)
        (db_host_group_id_to_hosts (actualize_host_groups inv now st)) g :=
      mem_new_host_ids_for.mpr ⟨hi, hsaved⟩
    have hdict := group_host_ids_mem_host_dict hi
    rcases Option.isSome_iff_exists.mp hdict with ⟨host, hd⟩
    have hostid : host.id = i := (dict_last_mem Host.id hd).2
    have hsource : (⟨g, host⟩ : HostSource)
        ∈ hosts_mutations inv (actualize_host_groups inv now st) := by
      apply mem_cast_hosts_diff_new.mpr
      refine ⟨group_ids_keys_of_mem hi, ?_, ?_⟩
      · show host.id ∈ new_host_ids_for _ _ g
        rw [hostid]
        exact hnew
      · show host_dict _ host.id = some host
        rw [hostid]
        exact hd
    refine ⟨host, mem_get_hosts_by_host_group_id.mpr ⟨?_, ⟨⟨host.id, g⟩, ?_, rfl, rfl⟩,
      ⟨row, hrow, hrid⟩⟩, hostid⟩
    · exact List.mem_append.mpr (Or.inr (List.mem_map_of_mem HostSource.host hsource))
    · exact List.mem_append.mpr
        (Or.inr (List.mem_map_of_mem
          (fun s => (⟨s.host.id, s.host_group_id⟩ : HostToHostGroup)) hsource))

theorem hosts_mutations_after_reconcile_empty (inv : ZabbixInventory) (now : Int)
    (st : MirrorState)
    (hA_pos : ∀ i ∈ key_finset HostGroup.id (zabbix_get_host_groups inv), 0 < i)
    (hcons : ∀ h ∈ inv.hosts, ∀ gid ∈ h.group_ids,
        gid ∈ inv.host_groups.map ZabbixHostGroup.groupid) :
    hosts_mutations inv (reconcile inv now st) = [] := by
  apply List.eq_nil_iff_forall_not_mem.mpr
  intro s hs
  rcases mem_cast_hosts_diff_new.mp hs with ⟨_, hnew, _⟩
  rcases mem_new_host_ids_for.mp hnew with ⟨hin, hout⟩
  exact hout (reconcile_host_coverage inv now st hA_pos hcons s.host_group_id s.host.id hin)

theorem actualize_hosts_identity (inv : ZabbixInventory) (st' : MirrorState)
    (h : hosts_mutations inv st' = []) : actualize_hosts inv st' = st' := by
  unfold actualize_hosts
  rw [h]
  simp

/-- **C7** (amended): reconciliation applies no mutation on a second run: for
every inventory whose group and trigger ids are positive (the mirror's `select`
filters on positive id) and whose hosts only reference reported groups, and for
every mirror state, running `reconcile()` twice with the Snapshot Source
unchanged makes the second run's *applied* bulk operations all empty — no
host-group insert/enable/disable, no host-source insert, no trigger insert —
and leaves the mirror state identical.  (The second run's *computed* trigger
enable/disable diff sets need not be empty — see the counterexample — but they
are never applied.) -/
theorem reconcile_idempotent (inv : ZabbixInventory) (st : MirrorState)
    (now now2 : Int)
    (hg_pos : ∀ g ∈ inv.host_groups, 0 < g.groupid)
    (ht_pos : ∀ t ∈ inv.triggers, 0 < t.triggerid)
    (hcons : ∀ h ∈ inv.hosts, ∀ gid ∈ h.group_ids,
        gid ∈ inv.host_groups.map ZabbixHostGroup.groupid)
    (hnow : now ≠ 0) :
    (reconcile_trace inv now2 (reconcile inv now st)).1 = ⟨[], [], [], [], []⟩
    ∧ reconcile inv now2 (reconcile inv now st) = reconcile inv now st := by
  have hA_pos := zabbix_host_group_ids_pos inv hg_pos
  have hT_pos := zabbix_trigger_ids_pos inv ht_pos
  have hv : visible_ids HostGroup.id (reconcile inv now st).host_groups
      = visible_ids HostGroup.id st.host_groups
        ∪ key_finset HostGroup.id (zabbix_get_host_groups inv) := by
    rw [reconcile_host_groups_eq]
    exact actualize_host_groups_visible inv now st hA_pos
  have hd : visible_disabled_ids HostGroup.id HostGroup.disabled_at
        (reconcile inv now st).host_groups
      = visible_ids HostGroup.id st.host_groups
        \ key_finset HostGroup.id (zabbix_get_host_groups inv) := by
    rw [reconcile_host_groups_eq]
    exact actualize_host_groups_disabled inv now st hnow
  have hm1 : host_group_mutations inv (reconcile inv now st) = ⟨[], [], []⟩ := by
    apply host_group_mutations_empty
    · rw [hv]
      exact Finset.subset_union_right
    · rw [hd]
      exact Finset.sdiff_inter_self _ _
    · rw [hd, hv]
      ext j
      simp only [Finset.mem_sdiff, Finset.mem_union, Finset.not_mem_empty, iff_false,
        not_and, not_not]
      tauto
  have hhg_id : actualize_host_groups inv now2 (reconcile inv now st)
      = reconcile inv now st :=
    actualize_host_groups_identity inv now2 _ hm1
  have hhosts : hosts_mutations inv (reconcile inv now st) = [] :=
    hosts_mutations_after_reconcile_empty inv now st hA_pos hcons
  have hhosts_id : actualize_hosts inv (reconcile inv now st) = reconcile inv now st :=
    actualize_hosts_identity inv _ hhosts
  have hvT : visible_ids Trigger.id (reconcile inv now st).triggers
      = visible_ids Trigger.id st.triggers
        ∪ key_finset Trigger.id (zabbix_get_triggers inv) :=
    reconcile_trigger_visible inv now st hT_pos
  have hmT : trigger_mutations inv (reconcile inv now st) = [] := by
    apply trigger_mutations_empty
    rw [hvT]
    exact Finset.subset_union_right
  have htr_id : actualize_triggers inv (reconcile inv now st) = reconcile inv now st :=
    actualize_triggers_identity inv _ hmT
  have hpair : reconcile_trace inv now2 (reconcile inv now st)
      = (⟨[], [], [], [], []⟩, reconcile inv now st) := by
    simp only [reconcile_trace]
    rw [hm1, hhg_id, hhosts, hhosts_id, hmT, htr_id]
  refine ⟨congrArg Prod.fst hpair, ?_⟩
  show (reconcile_trace inv now2 (reconcile inv now st)).2 = reconcile inv now st
  rw [hpair]

/-- **C7 witness**: a concrete inventory (two groups, one host, one trigger)
and a concrete mirror (one disabled group that reappears, one active group that
vanished): the first run inserts/enables/disables, the second run applies
nothing and leaves the state unchanged. -/
theorem reconcile_idempotent_witness :
    (reconcile_trace ⟨[⟨1, "A"⟩, ⟨2, "B"⟩], [⟨10, "h", [1]⟩], [⟨100, "t", 2, 10⟩]⟩ 60
        (reconcile ⟨[⟨1, "A"⟩, ⟨2, "B"⟩], [⟨10, "h", [1]⟩], [⟨100, "t", 2, 10⟩]⟩ 50
          ⟨[⟨2, "B", some 5⟩, ⟨3, "C", none⟩], [], [], []⟩)).1
      = ⟨[], [], [], [], []⟩
    ∧ reconcile ⟨[⟨1, "A"⟩, ⟨2, "B"⟩], [⟨10, "h", [1]⟩], [⟨100, "t", 2, 10⟩]⟩ 60
        (reconcile ⟨[⟨1, "A"⟩, ⟨2, "B"⟩], [⟨10, "h", [1]⟩], [⟨100, "t", 2, 10⟩]⟩ 50
          ⟨[⟨2, "B", some 5⟩, ⟨3, "C", none⟩], [], [], []⟩)
      = reconcile ⟨[⟨1, "A"⟩, ⟨2, "B"⟩], [⟨10, "h", [1]⟩], [⟨100, "t", 2, 10⟩]⟩ 50
          ⟨[⟨2, "B", some 5⟩, ⟨3, "C", none⟩], [], [], []⟩ :=
  reconcile_idempotent ⟨[⟨1, "A"⟩, ⟨2, "B"⟩], [⟨10, "h", [1]⟩], [⟨100, "t", 2, 10⟩]⟩
    ⟨[⟨2, "B", some 5⟩, ⟨3, "C", none⟩], [], [], []⟩ 50 60
    (by decide) (by decide) (by decide) (by decide)

end CourceMonitoring
